import Mathlib

/-!
Verification of the net-tools address library: a shallow embedding of
`mcast_mac_converter/NetAddress.py` (and its `IPv4Address` / `IPv6Address` /
`MACAddress` subclasses), of the derivation scripts `mip2mac.py` /
`mip2mac6.py`, and of `ipv6_tools/ans_inv_from_eui64.py`.

Strings are modelled as `List Char`; Python `int` values that can be
negative are modelled as `Int`, octet buffers as `List Nat` (the class
invariant keeps every stored octet in `[0, 255]`); fallible Python code
(code that can raise) returns `Except PyError`, and Python's `int(...)`
conversion returns `Option` (`none` models the `ValueError` it raises).
-/

set_option maxRecDepth 40000

/-- Python exception classes raised by the library (messages elided). -/
inductive PyError where
  | attributeError
  | valueError
deriving Repr, DecidableEq

deriving instance DecidableEq for Except

/-- Characters Python's `int(...)` strips from both ends of its argument
(the ASCII whitespace characters). -/
def isPySpace (c : Char) : Bool :=
  c = ' ' || c = '\t' || c = '\n' || c = '\x0d' || c = '\x0b' || c = '\x0c'

/-- Strip leading and trailing whitespace, as Python's `int(...)` does. -/
def stripWS (l : List Char) : List Char :=
  ((l.dropWhile isPySpace).reverse.dropWhile isPySpace).reverse

/-- Value of a decimal digit character, `none` for any other character. -/
def decDigitVal (c : Char) : Option Nat :=
  if '0' ≤ c ∧ c ≤ '9' then some (c.toNat - 48) else none

/-- Value of a hexadecimal digit character (either case), `none` otherwise. -/
def hexDigitVal (c : Char) : Option Nat :=
  if '0' ≤ c ∧ c ≤ '9' then some (c.toNat - 48)
  else if 'a' ≤ c ∧ c ≤ 'f' then some (c.toNat - 87)
  else if 'A' ≤ c ∧ c ≤ 'F' then some (c.toNat - 55)
  else none

/-- Accumulating digit-sequence evaluator: processes the digits left to
right, failing on the first character that is not a digit of the base. -/
def digitsGo (dv : Char → Option Nat) (base : Nat) (acc : Nat) :
    List Char → Option Nat
  | [] => some acc
  | c :: rest =>
    match dv c with
    | none => none
    | some v => digitsGo dv base (base * acc + v) rest

/-- Evaluate a non-empty digit sequence; an empty sequence is invalid. -/
def parseDigits (dv : Char → Option Nat) (base : Nat) (l : List Char) :
    Option Nat :=
  if l = [] then none else digitsGo dv base 0 l

/-- Drop a leading `0x` / `0X` base indicator, which Python's
`int(text, 16)` accepts. -/
def stripHexIndicator (l : List Char) : List Char :=
  match l with
  | c0 :: c1 :: rest => if c0 = '0' ∧ (c1 = 'x' ∨ c1 = 'X') then rest else l
  | _ => l

/-- Magnitude part of Python's `int(text)` (base 10) and `int(text, 16)`
(base 16, optional `0x` indicator). -/
def pyIntMag (isHex : Bool) (l : List Char) : Option Nat :=
  if isHex then parseDigits hexDigitVal 16 (stripHexIndicator l)
  else parseDigits decDigitVal 10 l

/-- Model of Python's `int(text)` / `int(text, 16)`: optional surrounding
whitespace, optional sign, then a non-empty digit sequence (`0x` prefix
allowed in base 16).  `none` models the `ValueError` Python raises.
Digit-group underscores (Python >= 3.6) are not modelled; no input in
this development contains them. -/
def pyInt (isHex : Bool) (s : List Char) : Option Int :=
  match stripWS s with
  | [] => none
  | c :: rest =>
    if c = '-' then (pyIntMag isHex rest).map (fun n => -(n : Int))
    else if c = '+' then (pyIntMag isHex rest).map (fun n => (n : Int))
    else (pyIntMag isHex (c :: rest)).map (fun n => (n : Int))

/-- Python `int(text)`. -/
def pyIntDec (s : List Char) : Option Int := pyInt false s

/-- Python `int(text, 16)`. -/
def pyIntHex (s : List Char) : Option Int := pyInt true s

/-- Python's single-character `str.split(sep)` with `sep` one character:
empty pieces are kept, and the empty string splits to `[""]`. -/
def pySplit (delim : Char) : List Char → List (List Char)
  | [] => [[]]
  | c :: rest =>
    match pySplit delim rest with
    | [] => [[]]
    | g :: gs => if c = delim then [] :: g :: gs else (c :: g) :: gs

/-- Join pieces with a one-character separator; this is the string the
source's append-with-separator `for` loops build. -/
def joinWith (d : Char) : List (List Char) → List Char
  | [] => []
  | [x] => x
  | x :: y :: rest => x ++ d :: joinWith d (y :: rest)

/-- Python `str(n)` for a nonnegative int: plain decimal digits. -/
def pyStrNat (n : Nat) : List Char := Nat.toDigits 10 n

/-- Python `hex(n)[2:]` for a nonnegative int: lowercase hex digits with
no leading zeros (`"0"` for zero). -/
def pyHexDigits (n : Nat) : List Char := Nat.toDigits 16 n

/-- Python `str.zfill(2)`: pad on the left with `'0'` up to width 2. -/
def zfill2 (l : List Char) : List Char := List.replicate (2 - l.length) '0' ++ l

/-- The source's octet formatter `hex(x)[2:].zfill(2)`. -/
def pyHex2 (n : Nat) : List Char := zfill2 (pyHexDigits n)

/-- Python `hex(v)` including the `0x` prefix and a sign for negatives. -/
def pyHexText (v : Int) : List Char :=
  (if v < 0 then ['-'] else []) ++ '0' :: 'x' :: Nat.toDigits 16 v.natAbs

/-- Python `hex(v)[-1]`: the last character of the hex rendering. -/
def pyHexLast (v : Int) : Char := (pyHexText v).getLastD ' '

/-!
The data model of `NetAddress.py`.  A `NetAddress` object stores its
octets (`self._octet`, a list of Python ints that the parsers keep in
`[0, 255]`) and its prefix length (`self._addrLen`).
-/

/-- State of a `NetAddress` object (`NetAddress.py`). -/
structure NetAddress where
  octet : List Nat
  addrLen : Nat
deriving Repr, DecidableEq

namespace NetAddress

/-- Length of the octet buffer (`NetAddress.__len__`). -/
def size (a : NetAddress) : Nat := a.octet.length

/-- One-based octet accessor (`NetAddress.getOctet`): for an index in
`[1, len]` returns the stored octet, otherwise the sentinel `-1`. -/
def getOctet (a : NetAddress) (octet : Nat) : Int :=
  if 1 ≤ octet ∧ octet ≤ a.octet.length then (a.octet.getD (octet - 1) 0 : Int)
  else -1

/-- One-based octet mutator (`NetAddress._setOctet`): stores the value
when the index is in `[1, len]` and the value in `[0, 255]`, otherwise
makes no change. -/
def setOctet (a : NetAddress) (octet : Nat) (value : Int) : NetAddress :=
  if (1 ≤ octet ∧ octet ≤ a.octet.length) ∧ (0 ≤ value ∧ value ≤ 255) then
    { a with octet := a.octet.set (octet - 1) value.toNat }
  else a

/-- Prefix length accessor (`NetAddress.getAddrLen`). -/
def getAddrLen (a : NetAddress) : Nat := a.addrLen

/-- Host length (`getHostLen` in each subclass): the family maximum `m`
(32 / 48 / 128) minus the prefix length.  The constructors enforce
`addrLen ≤ m`, so natural subtraction agrees with Python here. -/
def getHostLen (m : Nat) (a : NetAddress) : Nat := m - a.getAddrLen

/-- Bit test helper (`NetAddress._isBitset`, canonical bit 0-7 of byte
`byteIndex`, zero-based). -/
def isBitset (a : NetAddress) (bitIndex byteIndex : Nat) : Bool :=
  let byteValue := a.octet.getD byteIndex 0
  let bitValue := 2 ^ (7 - bitIndex)
  byteValue &&& bitValue = bitValue

/-- The zeroing loop of `NetAddress.getNetwork`:
`for i in range(octetsToClear, 0, -1): prefix._setOctet((len(self)+1)-i, 0)`.
In the source `prefix = self` binds a second name to the same object, so
the loop acts on the one shared state that this embedding threads
through.  `n` is `len(self)` and the second argument counts the loop
variable `i` down from `octetsToClear` to `1`. -/
def clearLoop (a : NetAddress) (n : Nat) : Nat → NetAddress
  | 0 => a
  | i + 1 => clearLoop (setOctet a ((n + 1) - (i + 1)) 0) n i

/-- `NetAddress.getNetwork` for a family with maximum prefix length `m`.
Python 2 `/` on ints is floor division, hence `Nat` division here.  The
returned value is the final state of the one object that both names
`prefix` and `self` refer to (the source's `prefix = self` does not
copy), so this is simultaneously the returned address and the state of
the input object after the call. -/
def getNetwork (m : Nat) (a : NetAddress) : NetAddress :=
  let octetsToClear := a.getHostLen m / 8
  let pfx := clearLoop a a.octet.length octetsToClear
  if octetsToClear > a.octet.length - 1 then pfx
  else
    let currentOctet := a.octet.length - octetsToClear
    let remainingBitsToClear := a.getHostLen m % 8
    let mask : Int := Int.xor ((2 : Int) ^ remainingBitsToClear - 1) 0xFF
    setOctet pfx currentOctet (Int.land (getOctet pfx currentOctet) mask)

end NetAddress

/-- Validity invariant established by the constructors: the octet buffer
has the family's fixed length `L`, every octet is an unsigned byte, and
the prefix length is bounded by the family maximum `m`. -/
def ValidAddr (L m : Nat) (a : NetAddress) : Prop :=
  a.octet.length = L ∧ (∀ o ∈ a.octet, o ≤ 255) ∧ a.addrLen ≤ m

instance (L m : Nat) (a : NetAddress) : Decidable (ValidAddr L m a) := by
  unfold ValidAddr
  infer_instance

/-- Input splitter (`NetAddress._splitInputString`): rejects empty input
(`AttributeError`), splits on the one-character delimiter, and requires
exactly `numOctets` pieces (`ValueError`). -/
def splitInputString (inputString : List Char) (delim : Char)
    (numOctets : Nat) : Except PyError (List (List Char)) :=
  if inputString.length = 0 then .error .attributeError
  else
    let stringOctets := pySplit delim inputString
    if stringOctets.length ≠ numOctets then .error .valueError
    else .ok stringOctets

namespace IPv4Address

/-- Field loop of `IPv4Address._parseInputString`: `int(field)` each
piece (`ValueError` when not numeric), reject values outside
`[0, 255]`, and collect the ints in order. -/
def parseOctets : List (List Char) → Except PyError (List Nat)
  | [] => .ok []
  | p :: rest =>
    match pyIntDec p with
    | none => .error .valueError
    | some current =>
      if current < 0 ∨ 255 < current then .error .valueError
      else
        match parseOctets rest with
        | .error e => .error e
        | .ok others => .ok (current.toNat :: others)

/-- `IPv4Address._parseInputString`: split on `'.'` into exactly 4
fields, parse each as a decimal octet, and re-check the count. -/
def parseInputString (inputString : List Char) :
    Except PyError (List Nat) :=
  match splitInputString inputString '.' 4 with
  | .error e => .error e
  | .ok parts =>
    match parseOctets parts with
    | .error e => .error e
    | .ok integerOctets =>
      if integerOctets.length ≠ 4 then .error .valueError
      else .ok integerOctets

/-- `IPv4Address.__init__`: reject `addrLen > 32`, parse the input, then
reject `addrLen < 0` (the parent constructor's lower-bound check). -/
def make (inputString : List Char) (addrLen : Int := 32) :
    Except PyError NetAddress :=
  if 32 < addrLen then .error .valueError
  else
    match parseInputString inputString with
    | .error e => .error e
    | .ok os =>
      if addrLen < 0 then .error .valueError
      else .ok ⟨os, addrLen.toNat⟩

/-- `IPv4Address.toString`: decimal octets joined with `'.'` (the
source's append loop builds exactly this join). -/
def toString (a : NetAddress) : List Char :=
  joinWith '.' (a.octet.map pyStrNat)

/-- `IPv4Address.isUnicast` (`self._octet[0] < 224`; the index is always
valid under the class invariant, so total `getD` indexing is exact). -/
def isUnicast (a : NetAddress) : Bool := a.octet.getD 0 0 < 224

/-- `IPv4Address.isMulticast` (`224 <= self._octet[0] <= 239`). -/
def isMulticast (a : NetAddress) : Bool :=
  224 ≤ a.octet.getD 0 0 ∧ a.octet.getD 0 0 ≤ 239

/-- `IPv4Address.isExperimental` (`self._octet[0] > 239`). -/
def isExperimental (a : NetAddress) : Bool := 239 < a.octet.getD 0 0

/-- `IPv4Address.isPrivateAddress`: the `if/elif` chain over
`10.x.x.x`, `172.16-31.x.x`, `192.>=168.x.x` and `239.x.x.x`. -/
def isPrivateAddress (a : NetAddress) : Bool :=
  if a.octet.getD 0 0 = 10 then true
  else if a.octet.getD 0 0 = 172 ∧
      (16 ≤ a.octet.getD 1 0 ∧ a.octet.getD 1 0 ≤ 31) then true
  else if a.octet.getD 0 0 = 192 ∧ 168 ≤ a.octet.getD 1 0 then true
  else if a.octet.getD 0 0 = 239 then true
  else false

end IPv4Address

namespace IPv6Address

/-- Field loop of `IPv6Address._parseInputString`: `int(field, 16)` each
16-bit group, reject values outside `[0, 65535]`, split the group into
its high and low bytes with `>> 8` and `& 255` (applied after the range
check, so the value is a known nonnegative int), sanity-check both
bytes, and collect high byte then low byte. -/
def parseGroups : List (List Char) → Except PyError (List Nat)
  | [] => .ok []
  | p :: rest =>
    match pyIntHex p with
    | none => .error .valueError
    | some current =>
      if current < 0 ∨ 65535 < current then .error .valueError
      else
        let currentLowOrder8bits := current.toNat &&& 255
        let currentHighOrder8bits := current.toNat >>> 8
        if 255 < currentLowOrder8bits then .error .valueError
        else if 255 < currentHighOrder8bits then .error .valueError
        else
          match parseGroups rest with
          | .error e => .error e
          | .ok others =>
            .ok (currentHighOrder8bits :: currentLowOrder8bits :: others)

/-- `IPv6Address._parseInputString`: split on `':'` into exactly 8
groups, parse each group into two octets, and require 16 octets. -/
def parseInputString (inputString : List Char) :
    Except PyError (List Nat) :=
  match splitInputString inputString ':' 8 with
  | .error e => .error e
  | .ok parts =>
    match parseGroups parts with
    | .error e => .error e
    | .ok integerOctets =>
      if integerOctets.length ≠ 16 then .error .valueError
      else .ok integerOctets

/-- `IPv6Address.__init__`: reject `addrLen > 128`, parse, then reject
`addrLen < 0`. -/
def make (inputString : List Char) (addrLen : Int := 128) :
    Except PyError NetAddress :=
  if 128 < addrLen then .error .valueError
  else
    match parseInputString inputString with
    | .error e => .error e
    | .ok os =>
      if addrLen < 0 then .error .valueError
      else .ok ⟨os, addrLen.toNat⟩

/-- Concatenate consecutive pairs: the `toString` loop of
`IPv6Address.py` emits two hex octets, then a `':'` after every odd
octet index except the last. -/
def pairConcat : List (List Char) → List (List Char)
  | x :: y :: rest => (x ++ y) :: pairConcat rest
  | [x] => [x]
  | [] => []

/-- `IPv6Address.toString`: fully-extended form, two zero-padded hex
octets per group, groups joined with `':'`. -/
def toString (a : NetAddress) : List Char :=
  joinWith ':' (pairConcat (a.octet.map pyHex2))

/-- `IPv6Address.isUnicast` (`self._octet[0] != 0xFF`). -/
def isUnicast (a : NetAddress) : Bool := a.octet.getD 0 0 ≠ 0xFF

/-- `IPv6Address.isMulticast` (`self._octet[0] == 0xFF`). -/
def isMulticast (a : NetAddress) : Bool := a.octet.getD 0 0 = 0xFF

end IPv6Address

namespace MACAddress

/-- Field loop of `MACAddress._parseInputString`: `int(field, 16)` each
piece, reject values outside `[0, 255]`, collect in order. -/
def parseOctets : List (List Char) → Except PyError (List Nat)
  | [] => .ok []
  | p :: rest =>
    match pyIntHex p with
    | none => .error .valueError
    | some current =>
      if current < 0 ∨ 255 < current then .error .valueError
      else
        match parseOctets rest with
        | .error e => .error e
        | .ok others => .ok (current.toNat :: others)

/-- `MACAddress._parseInputString`: split on `':'` into exactly 6
fields, parse each as a hex octet, and re-check the count. -/
def parseInputString (inputString : List Char) :
    Except PyError (List Nat) :=
  match splitInputString inputString ':' 6 with
  | .error e => .error e
  | .ok parts =>
    match parseOctets parts with
    | .error e => .error e
    | .ok integerOctets =>
      if integerOctets.length ≠ 6 then .error .valueError
      else .ok integerOctets

/-- `MACAddress.__init__`: reject `addrLen > 48`, parse, then reject
`addrLen < 0`. -/
def make (inputString : List Char) (addrLen : Int := 48) :
    Except PyError NetAddress :=
  if 48 < addrLen then .error .valueError
  else
    match parseInputString inputString with
    | .error e => .error e
    | .ok os =>
      if addrLen < 0 then .error .valueError
      else .ok ⟨os, addrLen.toNat⟩

/-- `MACAddress.toString`: zero-padded lowercase hex octets joined with
`':'`. -/
def toString (a : NetAddress) : List Char :=
  joinWith ':' (a.octet.map pyHex2)

/-- `MACAddress.isIGset`: bit 7 (the I/G bit) of the first byte. -/
def isIGset (a : NetAddress) : Bool := a.isBitset 7 0

/-- `MACAddress.isUnicast` (I/G bit clear). -/
def isUnicast (a : NetAddress) : Bool := !(isIGset a)

/-- `MACAddress.isMulticast` (I/G bit set). -/
def isMulticast (a : NetAddress) : Bool := isIGset a

end MACAddress

/-!
The derivation scripts.  `mip2mac.py` and `mip2mac6.py` process each
CLI argument independently: parse it, skip it when it is not multicast,
otherwise build a MAC string and parse that into a `MACAddress`.  The
per-record outcome is embedded here; `none` is the skip (no MAC is
produced for the record).
-/

/-- The MAC string `mip2mac.py` builds:
`"01:00:5E:" + hex(o2 % 128)[2:].zfill(2) + ":" + ...` with the second,
third and fourth octets of the multicast IPv4 address.  On every
reachable input `getOctet` returns the stored octet (a value in
`[0, 255]`), so the `Int.toNat` conversions under `hex(...)` are exact. -/
def mip2macInputString (mip : NetAddress) : List Char :=
  ['0', '1', ':', '0', '0', ':', '5', 'E', ':']
    ++ pyHex2 ((NetAddress.getOctet mip 2) % 128).toNat
    ++ ':' :: pyHex2 (NetAddress.getOctet mip 3).toNat
    ++ ':' :: pyHex2 (NetAddress.getOctet mip 4).toNat

/-- Per-record behaviour of the loop in `mip2mac.py`: skip (`none`) when
the parsed address is not multicast, otherwise construct the MAC
address object from the built string. -/
def mip2macOne (mip : NetAddress) : Option (Except PyError NetAddress) :=
  if IPv4Address.isMulticast mip then
    some (MACAddress.make (mip2macInputString mip))
  else none

/-- The MAC string `mip2mac6.py` builds: `"33:33"` followed by
`":" + hex(octet)[2:].zfill(2)` for octets 13 through 16. -/
def mip2mac6InputString (mip : NetAddress) : List Char :=
  ['3', '3', ':', '3', '3']
    ++ ':' :: pyHex2 (NetAddress.getOctet mip 13).toNat
    ++ ':' :: pyHex2 (NetAddress.getOctet mip 14).toNat
    ++ ':' :: pyHex2 (NetAddress.getOctet mip 15).toNat
    ++ ':' :: pyHex2 (NetAddress.getOctet mip 16).toNat

/-- Per-record behaviour of the loop in `mip2mac6.py`. -/
def mip2mac6One (mip : NetAddress) : Option (Except PyError NetAddress) :=
  if IPv6Address.isMulticast mip then
    some (MACAddress.make (mip2mac6InputString mip))
  else none

/-!
`ipv6_tools/ans_inv_from_eui64.py`.  `main` strips, lowercases and
removes the delimiters `-`, `:`, `.` from each line; the per-record
processing below starts from that cleaned MAC string.
-/

/-- `is_valid_mac` of `ans_inv_from_eui64.py`:
`len(mac) == 12 and int(mac, 16) > 0 and int(mac[1], 16) & 1 == 0`.
Python's `and` short-circuits, and a non-hex string makes `int(...)`
raise `ValueError`, which propagates (`.error`). -/
def is_valid_mac (mac : List Char) : Except PyError Bool :=
  if mac.length = 12 then
    match pyIntHex mac with
    | none => .error .valueError
    | some v =>
      if 0 < v then
        match pyIntHex ((mac.drop 1).take 1) with
        | none => .error .valueError
        | some w => .ok (decide (Int.land w 1 = 0))
      else .ok false
  else .ok false

/-- The host half built by `main`:
`f"{mac[:4]}:{mac[4:6]}ff:fe{mac[6:8]}:{mac[8:]}"`. -/
def host_addr (mac : List Char) : List Char :=
  mac.take 4 ++ ':' :: ((mac.drop 4).take 2
    ++ 'f' :: 'f' :: ':' :: 'f' :: 'e' :: ((mac.drop 6).take 2
      ++ ':' :: mac.drop 8))

/-- The host text with the universal/local bit flipped:
`{host_addr[:1]}{flip}{host_addr[2:]}` where
`flip = hex(v ^ 2)[-1]` and `v = int(host_addr[1], 16)`. -/
def eui64Host (mac : List Char) (v : Int) : List Char :=
  (host_addr mac).take 1 ++
    pyHexLast (Int.xor v 2) :: (host_addr mac).drop 2

/-- The flipped-bit re-assembly of `main`:
`flip = hex(int(host_addr[1], 16) ^ 2)[-1]` followed by
`f"{v6_prefix}{host_addr[:1]}{flip}{host_addr[2:]}"`.  `host_addr[1]`
indexes a string of length at least 14 on every reachable input, so the
`getD` default is never used. -/
def eui64Addr (mac pfxText : List Char) : Except PyError (List Char) :=
  match pyIntHex [(host_addr mac).getD 1 ' '] with
  | none => .error .valueError
  | some v => .ok (pfxText ++ eui64Host mac v)

/-- Per-record behaviour of the loop in `main`: an invalid MAC is
skipped (`none`), a valid one yields the EUI-64 address text, and a
`ValueError` escaping `is_valid_mac` or the conversion aborts the run
(`.error`). -/
def processLine (mac pfxText : List Char) :
    Except PyError (Option (List Char)) :=
  match is_valid_mac mac with
  | .error e => .error e
  | .ok false => .ok none
  | .ok true =>
    match eui64Addr mac pfxText with
    | .error e => .error e
    | .ok s => .ok (some s)

/-!
Spec-side definitions.  These are worded from the specification's
sentences (not from the source) so the source-derived functions above
can be compared against them, plus the standard textual interpretation
of IPv6 output strings needed to state expected outputs.
-/

/-- Clearing the low-order `r` bits of a byte, as the spec words it. -/
def clearLow (r o : Nat) : Nat := o - o % 2 ^ r

/-- The network octets exactly as claim C2 words them: with
`host_len = m - prefix_len`, `octets_to_clear = host_len / 8` and
`remaining_bits = host_len mod 8`, the last `octets_to_clear` octets
are zeroed and the straddling octet has its low-order
`(8 - remaining_bits)` bits cleared. -/
def networkOctetsClaimed (m : Nat) (a : NetAddress) : List Nat :=
  let hostLen := m - a.addrLen
  let octetsToClear := hostLen / 8
  let remainingBits := hostLen % 8
  let L := a.octet.length
  if L ≤ octetsToClear then List.replicate L 0
  else a.octet.take (L - octetsToClear - 1)
    ++ clearLow (8 - remainingBits) (a.octet.getD (L - octetsToClear - 1) 0)
    :: List.replicate octetsToClear 0

/-- The network octets as the amended claim words them: identical to
`networkOctetsClaimed` except that the straddling octet has its
low-order `remaining_bits` bits cleared (which is what the mask
`((1 <<< remaining_bits) - 1) XOR 0xFF` clears). -/
def networkOctetsAmended (m : Nat) (a : NetAddress) : List Nat :=
  let hostLen := m - a.addrLen
  let octetsToClear := hostLen / 8
  let remainingBits := hostLen % 8
  let L := a.octet.length
  if L ≤ octetsToClear then List.replicate L 0
  else a.octet.take (L - octetsToClear - 1)
    ++ clearLow remainingBits (a.octet.getD (L - octetsToClear - 1) 0)
    :: List.replicate octetsToClear 0

/-- The network address as claim C2 words it (octets per
`networkOctetsClaimed`, prefix length unchanged). -/
def networkClaimed (m : Nat) (a : NetAddress) : NetAddress :=
  ⟨networkOctetsClaimed m a, a.addrLen⟩

/-- The network address as the amended claim words it. -/
def networkAmended (m : Nat) (a : NetAddress) : NetAddress :=
  ⟨networkOctetsAmended m a, a.addrLen⟩

/-- One textual IPv6 group of 1 to 4 hex digits (RFC 4291 section 2.2). -/
def parseGroup (g : List Char) : Option Nat :=
  if 1 ≤ g.length ∧ g.length ≤ 4 then parseDigits hexDigitVal 16 g else none

/-- High byte then low byte of each 16-bit group. -/
def groupsToBytes : List Nat → List Nat
  | [] => []
  | g :: rest => g / 256 :: g % 256 :: groupsToBytes rest

/-- Locate the first `"::"` in an IPv6 text, returning the text before
and after it. -/
def findDoubleColon : List Char → Option (List Char × List Char)
  | [] => none
  | [_] => none
  | ':' :: ':' :: rest => some ([], rest)
  | c :: rest => (findDoubleColon rest).map (fun p => (c :: p.1, p.2))

/-- Parse a list of textual groups, failing if any group fails. -/
def parseGroupList : List (List Char) → Option (List Nat)
  | [] => some []
  | g :: rest =>
    match parseGroup g, parseGroupList rest with
    | some v, some vs => some (v :: vs)
    | _, _ => none

/-- Interpretation of an IPv6 address text (RFC 4291 section 2.2):
either eight colon-separated groups, or two runs of groups around one
`"::"` standing for enough zero groups to reach eight.  This is the
standard reading of the strings the tools print, used only to state
expected outputs. -/
def expandIPv6 (s : List Char) : Option (List Nat) :=
  match findDoubleColon s with
  | none =>
    match parseGroupList (pySplit ':' s) with
    | none => none
    | some gs => if gs.length = 8 then some (groupsToBytes gs) else none
  | some (l, r) =>
    let lg := if l = [] then some [] else parseGroupList (pySplit ':' l)
    let rg := if r = [] then some [] else parseGroupList (pySplit ':' r)
    match lg, rg with
    | some gl, some gr =>
      if gl.length + gr.length < 8 then
        some (groupsToBytes
          (gl ++ List.replicate (8 - gl.length - gr.length) 0 ++ gr))
      else none
    | _, _ => none

/-!
Helper lemmas about the splitting and joining of strings.
-/

lemma pySplit_ne_nil (d : Char) (s : List Char) : pySplit d s ≠ [] := by
  induction s with
  | nil => simp [pySplit]
  | cons c rest ih =>
    simp only [pySplit]
    split
    · simp
    · split <;> simp

lemma pySplit_cons_delim (d : Char) (s : List Char) :
    pySplit d (d :: s) = [] :: pySplit d s := by
  simp only [pySplit]
  rcases h : pySplit d s with _ | ⟨g, gs⟩
  · exact absurd h (pySplit_ne_nil d s)
  · simp

lemma pySplit_append (d : Char) (x s : List Char) (g : List Char)
    (gs : List (List Char)) (hx : d ∉ x) (hs : pySplit d s = g :: gs) :
    pySplit d (x ++ s) = (x ++ g) :: gs := by
  induction x with
  | nil => simpa using hs
  | cons c cx ih =>
    have hc : ¬(c = d) := fun h => hx (h ▸ List.mem_cons_self c cx)
    have hx2 : d ∉ cx := fun h => hx (List.mem_cons_of_mem c h)
    have ih2 := ih hx2
    simp only [List.cons_append, pySplit, List.append_eq]
    rw [ih2]
    simp [hc]

lemma pySplit_no_delim (d : Char) (x : List Char) (hx : d ∉ x) :
    pySplit d x = [x] := by
  have h0 : pySplit d ([] : List Char) = [] :: [] := rfl
  have := pySplit_append d x [] [] [] hx h0
  simpa using this

lemma pySplit_joinWith (d : Char) (parts : List (List Char))
    (hne : parts ≠ []) (hd : ∀ p ∈ parts, d ∉ p) :
    pySplit d (joinWith d parts) = parts := by
  induction parts with
  | nil => cases hne rfl
  | cons x rest ih =>
    cases rest with
    | nil => exact pySplit_no_delim d x (hd x (List.mem_cons_self x []))
    | cons y t =>
      have hmid : pySplit d (d :: joinWith d (y :: t)) = [] :: (y :: t) := by
        rw [pySplit_cons_delim,
          ih (by simp) (fun p hp => hd p (List.mem_cons_of_mem x hp))]
      have := pySplit_append d x (d :: joinWith d (y :: t)) [] (y :: t)
        (hd x (List.mem_cons_self x (y :: t))) hmid
      simpa [joinWith] using this

lemma joinWith_ne_nil (d : Char) (x : List Char) (rest : List (List Char))
    (hx : x ≠ []) : joinWith d (x :: rest) ≠ [] := by
  cases rest with
  | nil => simpa [joinWith] using hx
  | cons y t => simp [joinWith]

/-!
Bounded facts about the decimal and hexadecimal octet renderings,
established by exhaustive evaluation over the byte range.
-/

lemma pyStrNat_facts : ∀ n < 256,
    pyIntDec (pyStrNat n) = some (n : Int) ∧ '.' ∉ pyStrNat n ∧
    pyStrNat n ≠ [] := by decide

lemma pyHex2_facts : ∀ n < 256,
    pyIntHex (pyHex2 n) = some (n : Int) ∧ (pyHex2 n).length = 2 ∧
    (∀ c ∈ pyHex2 n, (hexDigitVal c).isSome) ∧ ':' ∉ pyHex2 n ∧
    pyHex2 n ≠ [] ∧ digitsGo hexDigitVal 16 0 (pyHex2 n) = some n := by decide

/-!
Lemmas about digit-sequence evaluation and about Python `int` conversion
on strings made of plain digits.
-/

lemma digitsGo_append (dv : Char → Option Nat) (b : Nat) (acc : Nat)
    (x y : List Char) :
    digitsGo dv b acc (x ++ y) =
      match digitsGo dv b acc x with
      | none => none
      | some a => digitsGo dv b a y := by
  induction x generalizing acc with
  | nil => simp [digitsGo]
  | cons c cx ih =>
    simp only [List.cons_append, digitsGo]
    rcases dv c with _ | v
    · simp
    · simp [ih]

lemma digitsGo_acc (dv : Char → Option Nat) (b : Nat) (acc : Nat)
    (l : List Char) :
    digitsGo dv b acc l =
      (digitsGo dv b 0 l).map (fun v => acc * b ^ l.length + v) := by
  induction l generalizing acc with
  | nil => simp [digitsGo]
  | cons c cx ih =>
    simp only [digitsGo]
    rcases dv c with _ | v
    · simp
    · dsimp only
      rw [ih (b * acc + v), ih (b * 0 + v)]
      rcases digitsGo dv b 0 cx with _ | w
      · simp
      · simp only [Option.map, List.length_cons, pow_succ]
        congr 1
        ring

lemma hexDigitVal_lt (c : Char) (w : Nat) (h : hexDigitVal c = some w) :
    w < 16 := by
  unfold hexDigitVal at h
  split at h
  · rename_i hc
    have h1 : '0'.toNat ≤ c.toNat := hc.1
    have h2 : c.toNat ≤ '9'.toNat := hc.2
    have e1 : '0'.toNat = 48 := rfl
    have e2 : '9'.toNat = 57 := rfl
    injection h with hw
    omega
  · split at h
    · rename_i hc
      have h1 : 'a'.toNat ≤ c.toNat := hc.1
      have h2 : c.toNat ≤ 'f'.toNat := hc.2
      have e1 : 'a'.toNat = 97 := rfl
      have e2 : 'f'.toNat = 102 := rfl
      injection h with hw
      omega
    · split at h
      · rename_i hc
        have h1 : 'A'.toNat ≤ c.toNat := hc.1
        have h2 : c.toNat ≤ 'F'.toNat := hc.2
        have e1 : 'A'.toNat = 65 := rfl
        have e2 : 'F'.toNat = 70 := rfl
        injection h with hw
        omega
      · cases h

lemma hexDigitVal_ne (c : Char) (w : Nat) (h : hexDigitVal c = some w)
    (c2 : Char) (hc2 : hexDigitVal c2 = none) : c ≠ c2 := by
  intro he
  rw [he, hc2] at h
  cases h

lemma hexDigit_not_space (c : Char) (w : Nat) (h : hexDigitVal c = some w) :
    isPySpace c = false := by
  have n1 := hexDigitVal_ne c w h ' ' (by decide)
  have n2 := hexDigitVal_ne c w h '\t' (by decide)
  have n3 := hexDigitVal_ne c w h '\n' (by decide)
  have n4 := hexDigitVal_ne c w h '\x0d' (by decide)
  have n5 := hexDigitVal_ne c w h '\x0b' (by decide)
  have n6 := hexDigitVal_ne c w h '\x0c' (by decide)
  simp [isPySpace, n1, n2, n3, n4, n5, n6]

lemma stripWS_id (l : List Char) (h : ∀ c ∈ l, isPySpace c = false) :
    stripWS l = l := by
  have hdrop : ∀ (t : List Char), (∀ c ∈ t, isPySpace c = false) →
      t.dropWhile isPySpace = t := by
    intro t ht
    cases t with
    | nil => rfl
    | cons c rest =>
      rw [List.dropWhile_cons, ht c (List.mem_cons_self c rest)]
      simp
  unfold stripWS
  rw [hdrop l h, hdrop l.reverse (fun c hc => h c (List.mem_reverse.mp hc)),
    List.reverse_reverse]

lemma pyIntHex_digits (l : List Char) (v : Nat) (hne : l ≠ [])
    (hall : ∀ c ∈ l, (hexDigitVal c).isSome)
    (hval : digitsGo hexDigitVal 16 0 l = some v) :
    pyIntHex l = some (v : Int) := by
  have hsp : ∀ c ∈ l, isPySpace c = false := by
    intro c hc
    obtain ⟨w, hw⟩ := Option.isSome_iff_exists.mp (hall c hc)
    exact hexDigit_not_space c w hw
  cases l with
  | nil => cases hne rfl
  | cons c rest =>
    obtain ⟨w, hw⟩ :=
      Option.isSome_iff_exists.mp (hall c (List.mem_cons_self c rest))
    have hm : c ≠ '-' := hexDigitVal_ne c w hw '-' (by decide)
    have hp : c ≠ '+' := hexDigitVal_ne c w hw '+' (by decide)
    unfold pyIntHex pyInt
    rw [stripWS_id (c :: rest) hsp]
    dsimp only
    rw [if_neg hm, if_neg hp]
    have hmag : pyIntMag true (c :: rest) = some v := by
      unfold pyIntMag
      rw [if_pos rfl]
      have hstrip : stripHexIndicator (c :: rest) = c :: rest := by
        cases rest with
        | nil => rfl
        | cons c1 r2 =>
          obtain ⟨w1, hw1⟩ := Option.isSome_iff_exists.mp
            (hall c1 (List.mem_cons_of_mem c (List.mem_cons_self c1 r2)))
          have hx : c1 ≠ 'x' := hexDigitVal_ne c1 w1 hw1 'x' (by decide)
          have hX : c1 ≠ 'X' := hexDigitVal_ne c1 w1 hw1 'X' (by decide)
          unfold stripHexIndicator
          dsimp only
          rw [if_neg]
          rintro ⟨-, h1 | h1⟩
          · exact hx h1
          · exact hX h1
      rw [hstrip]
      unfold parseDigits
      rw [if_neg (by simp)]
      exact hval
    rw [hmag]
    rfl

lemma digitsGo_hex2_pair (a b : Nat) (ha : a ≤ 255) (hb : b ≤ 255) :
    digitsGo hexDigitVal 16 0 (pyHex2 a ++ pyHex2 b) = some (256 * a + b) := by
  have fa := pyHex2_facts a (by omega)
  have fb := pyHex2_facts b (by omega)
  rw [digitsGo_append, fa.2.2.2.2.2]
  dsimp only
  rw [digitsGo_acc, fb.2.2.2.2.2]
  dsimp only [Option.map]
  rw [fb.2.1]
  congr 1
  ring

lemma pyIntHex_hex2_pair (a b : Nat) (ha : a ≤ 255) (hb : b ≤ 255) :
    pyIntHex (pyHex2 a ++ pyHex2 b) = some ((256 * a + b : Nat) : Int) := by
  have fa := pyHex2_facts a (by omega)
  have fb := pyHex2_facts b (by omega)
  apply pyIntHex_digits
  · intro h
    have := congrArg List.length h
    rw [List.length_append, fa.2.1, fb.2.1] at this
    simp at this
  · intro c hc
    rcases List.mem_append.mp hc with h | h
    · exact fa.2.2.1 c h
    · exact fb.2.2.1 c h
  · exact digitsGo_hex2_pair a b ha hb

/-!
Lemmas mapping the three field-parsing loops over the canonical octet
renderings.
-/

lemma parseOctetsDec_map (os : List Nat) (h : ∀ o ∈ os, o ≤ 255) :
    IPv4Address.parseOctets (os.map pyStrNat) = .ok os := by
  induction os with
  | nil => rfl
  | cons o rest ih =>
    have ho : o ≤ 255 := h o (List.mem_cons_self o rest)
    have hfacts := pyStrNat_facts o (by omega)
    have hcond : ¬((o : Int) < 0 ∨ (255 : Int) < (o : Int)) := by
      rintro (h1 | h1) <;> omega
    simp only [List.map_cons, IPv4Address.parseOctets, hfacts.1, if_neg hcond,
      ih (fun x hx => h x (List.mem_cons_of_mem o hx))]
    congr 1

lemma parseOctetsHex_map (os : List Nat) (h : ∀ o ∈ os, o ≤ 255) :
    MACAddress.parseOctets (os.map pyHex2) = .ok os := by
  induction os with
  | nil => rfl
  | cons o rest ih =>
    have ho : o ≤ 255 := h o (List.mem_cons_self o rest)
    have hfacts := pyHex2_facts o (by omega)
    have hcond : ¬((o : Int) < 0 ∨ (255 : Int) < (o : Int)) := by
      rintro (h1 | h1) <;> omega
    simp only [List.map_cons, MACAddress.parseOctets, hfacts.1, if_neg hcond,
      ih (fun x hx => h x (List.mem_cons_of_mem o hx))]
    congr 1

lemma parseGroups_cons (a b : Nat) (ha : a ≤ 255) (hb : b ≤ 255)
    (rest : List (List Char)) (os : List Nat)
    (hrest : IPv6Address.parseGroups rest = .ok os) :
    IPv6Address.parseGroups ((pyHex2 a ++ pyHex2 b) :: rest) =
      .ok (a :: b :: os) := by
  have hcond : ¬(((256 * a + b : Nat) : Int) < 0 ∨
      (65535 : Int) < ((256 * a + b : Nat) : Int)) := by
    rintro (h1 | h1) <;> omega
  simp only [IPv6Address.parseGroups, pyIntHex_hex2_pair a b ha hb,
    if_neg hcond, hrest]
  have htn : ((((256 * a + b : Nat) : Int)).toNat) = 256 * a + b := by omega
  rw [htn]
  have hlo : (256 * a + b) &&& 255 = b := by
    have h255 : (255 : Nat) = 2 ^ 8 - 1 := by norm_num
    rw [h255, Nat.and_pow_two_sub_one_eq_mod]
    omega
  have hhi : (256 * a + b) >>> 8 = a := by
    rw [Nat.shiftRight_eq_div_pow]
    omega
  rw [hlo, hhi]
  simp only [if_neg (by omega : ¬(255 < b)), if_neg (by omega : ¬(255 < a))]

lemma parseGroups_pairConcat : ∀ (os : List Nat), (∀ o ∈ os, o ≤ 255) →
    os.length % 2 = 0 →
    IPv6Address.parseGroups (IPv6Address.pairConcat (os.map pyHex2)) = .ok os
  | [], _, _ => rfl
  | [o], _, he => by simp at he
  | o1 :: o2 :: rest, h, he => by
    have h1 : o1 ≤ 255 := h o1 (by simp)
    have h2 : o2 ≤ 255 := h o2 (by simp)
    have he2 : rest.length % 2 = 0 := by
      simp only [List.length_cons] at he
      omega
    have hrest := parseGroups_pairConcat rest
      (fun x hx => h x (List.mem_cons_of_mem o1 (List.mem_cons_of_mem o2 hx)))
      he2
    simp only [List.map_cons, IPv6Address.pairConcat]
    exact parseGroups_cons o1 o2 h1 h2 _ rest hrest

lemma pairConcat_length : ∀ (l : List (List Char)), l.length % 2 = 0 →
    (IPv6Address.pairConcat l).length = l.length / 2
  | [], _ => rfl
  | [x], h => by simp at h
  | x :: y :: rest, h => by
    have h2 : rest.length % 2 = 0 := by
      simp only [List.length_cons] at h
      omega
    simp only [IPv6Address.pairConcat, List.length_cons,
      pairConcat_length rest h2]
    omega

lemma pairConcat_forall (P : List Char → Prop)
    (hP : ∀ x y, P x → P y → P (x ++ y)) :
    ∀ (l : List (List Char)), (∀ p ∈ l, P p) →
      ∀ q ∈ IPv6Address.pairConcat l, P q
  | [], _, q, hq => by simp [IPv6Address.pairConcat] at hq
  | [x], h, q, hq => by
    simp only [IPv6Address.pairConcat, List.mem_singleton] at hq
    exact hq ▸ h x (by simp)
  | x :: y :: rest, h, q, hq => by
    simp only [IPv6Address.pairConcat, List.mem_cons] at hq
    rcases hq with rfl | hq
    · exact hP x y (h x (by simp)) (h y (by simp))
    · exact pairConcat_forall P hP rest (fun p hp => h p (by simp [hp])) q hq

/-!
Round-trip lemmas: parsing the canonical string of a valid address
recovers the octets.
-/

lemma roundtrip_ipv4 (a : NetAddress) (hv : ValidAddr 4 32 a) :
    IPv4Address.parseInputString (IPv4Address.toString a) = .ok a.octet := by
  obtain ⟨hlen, hoct, hpl⟩ := hv
  have hmem : ∀ p ∈ a.octet.map pyStrNat, '.' ∉ p ∧ p ≠ [] := by
    intro p hp
    obtain ⟨o, ho, rfl⟩ := List.mem_map.mp hp
    have := pyStrNat_facts o (by have := hoct o ho; omega)
    exact ⟨this.2.1, this.2.2⟩
  have hsplit : pySplit '.' (joinWith '.' (a.octet.map pyStrNat)) =
      a.octet.map pyStrNat := by
    apply pySplit_joinWith
    · intro hcon
      have := congrArg List.length hcon
      simp [hlen] at this
    · exact fun p hp => (hmem p hp).1
  have hinput : joinWith '.' (a.octet.map pyStrNat) ≠ [] := by
    rcases hl : a.octet.map pyStrNat with _ | ⟨p0, prest⟩
    · have := congrArg List.length hl
      simp [hlen] at this
    · exact hl ▸ joinWith_ne_nil '.' p0 prest
        ((hmem p0 (hl ▸ List.mem_cons_self p0 prest)).2)
  unfold IPv4Address.toString IPv4Address.parseInputString splitInputString
  rw [if_neg (by simpa using hinput), hsplit]
  rw [if_neg (by simp [hlen])]
  dsimp only
  rw [parseOctetsDec_map a.octet hoct]
  dsimp only
  rw [if_neg (by simp [hlen])]

lemma roundtrip_mac (a : NetAddress) (hv : ValidAddr 6 48 a) :
    MACAddress.parseInputString (MACAddress.toString a) = .ok a.octet := by
  obtain ⟨hlen, hoct, hpl⟩ := hv
  have hmem : ∀ p ∈ a.octet.map pyHex2, ':' ∉ p ∧ p ≠ [] := by
    intro p hp
    obtain ⟨o, ho, rfl⟩ := List.mem_map.mp hp
    have := pyHex2_facts o (by have := hoct o ho; omega)
    exact ⟨this.2.2.2.1, this.2.2.2.2.1⟩
  have hsplit : pySplit ':' (joinWith ':' (a.octet.map pyHex2)) =
      a.octet.map pyHex2 := by
    apply pySplit_joinWith
    · intro hcon
      have := congrArg List.length hcon
      simp [hlen] at this
    · exact fun p hp => (hmem p hp).1
  have hinput : joinWith ':' (a.octet.map pyHex2) ≠ [] := by
    rcases hl : a.octet.map pyHex2 with _ | ⟨p0, prest⟩
    · have := congrArg List.length hl
      simp [hlen] at this
    · exact hl ▸ joinWith_ne_nil ':' p0 prest
        ((hmem p0 (hl ▸ List.mem_cons_self p0 prest)).2)
  unfold MACAddress.toString MACAddress.parseInputString splitInputString
  rw [if_neg (by simpa using hinput), hsplit]
  rw [if_neg (by simp [hlen])]
  dsimp only
  rw [parseOctetsHex_map a.octet hoct]
  dsimp only
  rw [if_neg (by simp [hlen])]

lemma roundtrip_ipv6 (a : NetAddress) (hv : ValidAddr 16 128 a) :
    IPv6Address.parseInputString (IPv6Address.toString a) = .ok a.octet := by
  obtain ⟨hlen, hoct, hpl⟩ := hv
  have hmem : ∀ p ∈ a.octet.map pyHex2, ':' ∉ p ∧ p ≠ [] := by
    intro p hp
    obtain ⟨o, ho, rfl⟩ := List.mem_map.mp hp
    have := pyHex2_facts o (by have := hoct o ho; omega)
    exact ⟨this.2.2.2.1, this.2.2.2.2.1⟩
  have hgrp : ∀ q ∈ IPv6Address.pairConcat (a.octet.map pyHex2),
      ':' ∉ q ∧ q ≠ [] := by
    apply pairConcat_forall (fun q => ':' ∉ q ∧ q ≠ [])
    · intro x y hx hy
      constructor
      · intro hc
        rcases List.mem_append.mp hc with h | h
        · exact hx.1 h
        · exact hy.1 h
      · intro hc
        have := List.append_eq_nil.mp hc
        exact hx.2 this.1
    · exact hmem
  have hmaplen : (a.octet.map pyHex2).length % 2 = 0 := by simp [hlen]
  have hgcount : (IPv6Address.pairConcat (a.octet.map pyHex2)).length = 8 := by
    rw [pairConcat_length _ hmaplen]
    simp [hlen]
  have hsplit : pySplit ':'
      (joinWith ':' (IPv6Address.pairConcat (a.octet.map pyHex2))) =
      IPv6Address.pairConcat (a.octet.map pyHex2) := by
    apply pySplit_joinWith
    · intro hcon
      have := congrArg List.length hcon
      rw [hgcount] at this
      simp at this
    · exact fun p hp => (hgrp p hp).1
  have hinput : joinWith ':' (IPv6Address.pairConcat (a.octet.map pyHex2)) ≠
      [] := by
    rcases hl : IPv6Address.pairConcat (a.octet.map pyHex2) with _ | ⟨p0, prest⟩
    · have := congrArg List.length hl
      rw [hgcount] at this
      simp at this
    · exact hl ▸ joinWith_ne_nil ':' p0 prest
        ((hgrp p0 (hl ▸ List.mem_cons_self p0 prest)).2)
  unfold IPv6Address.toString IPv6Address.parseInputString splitInputString
  rw [if_neg (by simpa using hinput), hsplit]
  rw [if_neg (by simp [hgcount])]
  dsimp only
  rw [parseGroups_pairConcat a.octet hoct (by simp [hlen])]
  dsimp only
  rw [if_neg (by simp [hlen])]

/-!
Characterisation of the network computation.
-/

lemma int_land_mask : ∀ o : Nat, o < 256 → ∀ r : Nat, r < 8 →
    Int.land (o : Int) (Int.xor ((2 : Int) ^ r - 1) 255) =
      ((clearLow r o : Nat) : Int) := by decide

lemma setOctet_valid (a : NetAddress) (i : Nat) (v : Int)
    (hi1 : 1 ≤ i) (hi2 : i ≤ a.octet.length) (hv1 : 0 ≤ v) (hv2 : v ≤ 255) :
    NetAddress.setOctet a i v = ⟨a.octet.set (i - 1) v.toNat, a.addrLen⟩ := by
  unfold NetAddress.setOctet
  rw [if_pos ⟨⟨hi1, hi2⟩, hv1, hv2⟩]

lemma set_take_succ : ∀ (l : List Nat) (k : Nat) (v : Nat), k < l.length →
    (l.set k v).take (k + 1) = l.take k ++ [v]
  | [], k, v, h => by simp at h
  | x :: rest, 0, v, _ => by simp
  | x :: rest, k + 1, v, h => by
    simp only [List.set_cons_succ, List.take_succ_cons, List.cons_append]
    rw [set_take_succ rest k v (by simpa using h)]

lemma set_of_length_succ : ∀ (l : List Nat) (k : Nat) (v : Nat),
    l.length = k + 1 → l.set k v = l.take k ++ [v]
  | [], k, v, h => by simp at h
  | x :: rest, 0, v, h => by
    have : rest = [] := List.length_eq_zero.mp (by simpa using h)
    simp [this]
  | x :: rest, k + 1, v, h => by
    simp only [List.set_cons_succ, List.take_succ_cons, List.cons_append]
    rw [set_of_length_succ rest k v (by simpa using h)]

lemma getD_take : ∀ (l : List Nat) (k j : Nat), j < k →
    (l.take k).getD j 0 = l.getD j 0
  | [], _, _, _ => by simp
  | _ :: _, 0, j, h => by omega
  | x :: rest, k + 1, 0, _ => rfl
  | x :: rest, k + 1, j + 1, h => by
    simp only [List.take_succ_cons, List.getD_cons_succ]
    exact getD_take rest k j (by omega)

lemma getD_mem_of_lt : ∀ (l : List Nat) (j : Nat), j < l.length →
    l.getD j 0 ∈ l
  | [], j, h => by simp at h
  | x :: rest, 0, _ => List.mem_cons_self x rest
  | x :: rest, j + 1, h => by
    simp only [List.getD_cons_succ]
    exact List.mem_cons_of_mem x (getD_mem_of_lt rest j (by simpa using h))

lemma take_last_getD : ∀ (l : List Nat), 1 ≤ l.length →
    l.take (l.length - 1) ++ [l.getD (l.length - 1) 0] = l
  | [], h => by simp at h
  | [x], _ => rfl
  | x :: y :: rest, _ => by
    have ih := take_last_getD (y :: rest) (by simp)
    simp only [List.length_cons, Nat.add_sub_cancel] at ih ⊢
    simp only [List.take_succ_cons, List.getD_cons_succ, List.cons_append]
    rw [ih]

lemma clearLoop_spec : ∀ (c : Nat) (a : NetAddress), c ≤ a.octet.length →
    NetAddress.clearLoop a a.octet.length c =
      ⟨a.octet.take (a.octet.length - c) ++ List.replicate c 0, a.addrLen⟩
  | 0, a, _ => by
    simp only [NetAddress.clearLoop, Nat.sub_zero, List.take_length,
      List.replicate_zero, List.append_nil]
  | c + 1, a, hc => by
    have hlen : 1 ≤ a.octet.length - c := by omega
    have hset := setOctet_valid a (a.octet.length - c) 0
      (by omega) (by omega) (by norm_num) (by norm_num)
    set a2 : NetAddress :=
      ⟨a.octet.set (a.octet.length - c - 1) 0, a.addrLen⟩ with ha2
    have hlen2 : a2.octet.length = a.octet.length := by
      simp [ha2]
    have step : NetAddress.clearLoop a a.octet.length (c + 1) =
        NetAddress.clearLoop a2 a2.octet.length c := by
      simp only [NetAddress.clearLoop]
      rw [hlen2]
      congr 1
      rw [show a.octet.length + 1 - (c + 1) = a.octet.length - c by omega]
      rw [hset]
      simp [ha2]
    rw [step, clearLoop_spec c a2 (by omega)]
    simp only [ha2, hlen2]
    congr 1
    have htake : (a.octet.set (a.octet.length - c - 1) 0).take
        (a.octet.length - c) = a.octet.take (a.octet.length - c - 1) ++ [0] := by
      rw [show a.octet.length - c = (a.octet.length - c - 1) + 1 by omega]
      exact set_take_succ a.octet (a.octet.length - c - 1) 0 (by omega)
    rw [htake]
    rw [show a.octet.length - (c + 1) = a.octet.length - c - 1 by omega]
    simp [List.replicate_succ]

lemma getNetwork_eq_amended (m : Nat) (a : NetAddress)
    (hL : 1 ≤ a.octet.length) (hm : m = 8 * a.octet.length)
    (hpl : a.addrLen ≤ m) (hoct : ∀ o ∈ a.octet, o ≤ 255) :
    NetAddress.getNetwork m a = networkAmended m a := by
  have hhost : m - a.addrLen ≤ 8 * a.octet.length := by omega
  have hc_le : (m - a.addrLen) / 8 ≤ a.octet.length := by omega
  unfold NetAddress.getNetwork NetAddress.getHostLen NetAddress.getAddrLen
  unfold networkAmended networkOctetsAmended
  dsimp only
  by_cases hcn : (m - a.addrLen) / 8 > a.octet.length - 1
  · have hc : (m - a.addrLen) / 8 = a.octet.length := by omega
    rw [if_pos hcn, if_pos (by omega)]
    rw [clearLoop_spec _ a hc_le]
    rw [hc]
    simp
  · have hclt : (m - a.addrLen) / 8 < a.octet.length := by omega
    rw [if_neg hcn, if_neg (by omega)]
    set c := (m - a.addrLen) / 8 with hcdef
    set r := (m - a.addrLen) % 8 with hrdef
    have hr8 : r < 8 := Nat.mod_lt _ (by norm_num)
    rw [clearLoop_spec c a hc_le]
    set pfx : NetAddress :=
      ⟨a.octet.take (a.octet.length - c) ++ List.replicate c 0, a.addrLen⟩
      with hpfx
    have hplen : pfx.octet.length = a.octet.length := by
      simp only [hpfx, List.length_append, List.length_take,
        List.length_replicate]
      omega
    set o := a.octet.getD (a.octet.length - c - 1) 0 with hodef
    have homem : o ∈ a.octet := getD_mem_of_lt a.octet _ (by omega)
    have ho255 : o ≤ 255 := hoct o homem
    have hget : NetAddress.getOctet pfx (a.octet.length - c) = (o : Int) := by
      unfold NetAddress.getOctet
      rw [if_pos ⟨by omega, by omega⟩]
      congr 1
      rw [hpfx]
      dsimp only
      rw [List.getD_append _ _ _ _
        (by rw [List.length_take]; omega)]
      exact getD_take a.octet (a.octet.length - c) (a.octet.length - c - 1)
        (by omega)
    rw [hget]
    rw [int_land_mask o (by omega) r hr8]
    have hcl : clearLow r o ≤ 255 := by
      unfold clearLow
      omega
    rw [setOctet_valid pfx (a.octet.length - c) _ (by omega)
      (by omega) (by positivity) (by exact_mod_cast hcl)]
    rw [hpfx]
    dsimp only
    congr 1
    rw [Int.toNat_natCast]
    rw [List.set_append]
    rw [if_pos (by rw [List.length_take]; omega)]
    rw [set_of_length_succ (a.octet.take (a.octet.length - c))
      (a.octet.length - c - 1) (clearLow r o)
      (by rw [List.length_take]; omega)]
    rw [List.take_take, min_eq_left (by omega)]
    simp

lemma networkAmended_max (m : Nat) (a : NetAddress) (hL : 1 ≤ a.octet.length)
    (hm : a.addrLen = m) : networkAmended m a = a := by
  unfold networkAmended networkOctetsAmended
  dsimp only
  rw [hm, Nat.sub_self]
  rw [if_neg (by omega)]
  simp only [Nat.zero_div, Nat.zero_mod, Nat.sub_zero, List.replicate_zero]
  have h1 : clearLow 0 (a.octet.getD (a.octet.length - 1) 0) =
      a.octet.getD (a.octet.length - 1) 0 := by
    unfold clearLow
    simp [Nat.mod_one]
  rw [h1, take_last_getD a.octet hL, ← hm]

lemma networkAmended_zero (m : Nat) (a : NetAddress)
    (hm : m = 8 * a.octet.length) (h0 : a.addrLen = 0) :
    (networkAmended m a).octet = List.replicate a.octet.length 0 := by
  unfold networkAmended networkOctetsAmended
  dsimp only
  rw [h0, Nat.sub_zero, hm]
  rw [if_pos (by rw [Nat.mul_div_cancel_left _ (by norm_num : 0 < 8)])]

/-!
Claim theorems.
-/

/-- C1 (evidence of the code bug): `getNetwork` binds `prefix = self`
without copying, so every `_setOctet` call mutates the input object and
the returned reference is that same object.  `NetAddress.getNetwork`
embeds the one shared final state, so after the call the input object's
octets for 20.54.55.68/28 read [20, 54, 55, 64] and no longer equal the
original octets [20, 54, 55, 68] — contradicting the claim (and the
source's own comments) that the input is never mutated. -/
theorem c1_mutation_demo :
    (NetAddress.getNetwork 32 ⟨[20, 54, 55, 68], 28⟩).octet =
      [20, 54, 55, 64] ∧
    (NetAddress.getNetwork 32 ⟨[20, 54, 55, 68], 28⟩).octet ≠
      [20, 54, 55, 68] := by decide

/-- C2 (counterexample to the claim as stated): for the valid address
1.1.1.255/29 (remaining_bits = 3) the code's network octets are
[1, 1, 1, 248] — the straddling octet has its low-order `remaining_bits`
bits cleared — while the claim's words "low-order (8 − remaining_bits)
bits cleared" describe [1, 1, 1, 224]. -/
theorem c2_counterexample :
    ValidAddr 4 32 ⟨[1, 1, 1, 255], 29⟩ ∧
    NetAddress.getNetwork 32 ⟨[1, 1, 1, 255], 29⟩ ≠
      networkClaimed 32 ⟨[1, 1, 1, 255], 29⟩ := by decide

/-- C2 (amended): for every valid address of any of the three families
(octet count L = 4, 6 or 16, family maximum 8·L), `getNetwork` yields
exactly the address described by the amended claim — the last
`octets_to_clear` octets zeroed and the straddling octet with its
low-order `remaining_bits` bits cleared; prefix_len = family maximum
leaves the address unchanged, prefix_len = 0 zeroes every octet, and
network_of(20.54.55.68/28) = 20.54.55.64/28. -/
theorem c2_network_formula (L : Nat) (a : NetAddress)
    (hfam : L = 4 ∨ L = 6 ∨ L = 16) (hv : ValidAddr L (8 * L) a) :
    NetAddress.getNetwork (8 * L) a = networkAmended (8 * L) a
    ∧ (a.addrLen = 8 * L → NetAddress.getNetwork (8 * L) a = a)
    ∧ (a.addrLen = 0 →
        (NetAddress.getNetwork (8 * L) a).octet = List.replicate L 0)
    ∧ NetAddress.getNetwork 32 ⟨[20, 54, 55, 68], 28⟩ =
        ⟨[20, 54, 55, 64], 28⟩ := by
  obtain ⟨hlen, hoct, hpl⟩ := hv
  have hL1 : 1 ≤ a.octet.length := by rcases hfam with h | h | h <;> omega
  have hmain := getNetwork_eq_amended (8 * L) a hL1 (by omega) hpl hoct
  refine ⟨hmain, ?_, ?_, by decide⟩
  · intro hmax
    rw [hmain, networkAmended_max _ a hL1 hmax]
  · intro h0
    rw [hmain, networkAmended_zero _ a (by omega) h0, hlen]

/-- Witness for C2's amended theorem at the concrete input
20.54.55.68/28 of the IPv4 family. -/
theorem c2_network_formula_witness :
    ValidAddr 4 (8 * 4) ⟨[20, 54, 55, 68], 28⟩ ∧
    NetAddress.getNetwork (8 * 4) ⟨[20, 54, 55, 68], 28⟩ =
      networkAmended (8 * 4) ⟨[20, 54, 55, 68], 28⟩ :=
  ⟨by decide,
    (c2_network_formula 4 ⟨[20, 54, 55, 68], 28⟩ (Or.inl rfl) (by decide)).1⟩

/-- C5: for every valid address of each family, parsing the canonical
string form with that family's parse function succeeds and returns
exactly the original octets. -/
theorem c5_roundtrip :
    (∀ a : NetAddress, ValidAddr 4 32 a →
      IPv4Address.parseInputString (IPv4Address.toString a) = .ok a.octet)
    ∧ (∀ a : NetAddress, ValidAddr 6 48 a →
      MACAddress.parseInputString (MACAddress.toString a) = .ok a.octet)
    ∧ (∀ a : NetAddress, ValidAddr 16 128 a →
      IPv6Address.parseInputString (IPv6Address.toString a) = .ok a.octet) :=
  ⟨roundtrip_ipv4, roundtrip_mac, roundtrip_ipv6⟩

/-- Witness for C5 at 239.1.1.1/32. -/
theorem c5_roundtrip_witness :
    IPv4Address.parseInputString
      (IPv4Address.toString ⟨[239, 1, 1, 1], 32⟩) = .ok [239, 1, 1, 1] :=
  c5_roundtrip.1 ⟨[239, 1, 1, 1], 32⟩ (by decide)

/-- C6: the classification predicates partition every valid address —
for IPv4 exactly one of unicast / multicast / experimental holds, and
for IPv6 and MAC exactly one of unicast / multicast holds. -/
theorem c6_partition :
    (∀ a : NetAddress, ValidAddr 4 32 a →
      (IPv4Address.isUnicast a = true ∧ IPv4Address.isMulticast a = false ∧
        IPv4Address.isExperimental a = false) ∨
      (IPv4Address.isUnicast a = false ∧ IPv4Address.isMulticast a = true ∧
        IPv4Address.isExperimental a = false) ∨
      (IPv4Address.isUnicast a = false ∧ IPv4Address.isMulticast a = false ∧
        IPv4Address.isExperimental a = true))
    ∧ (∀ a : NetAddress, ValidAddr 16 128 a →
      (IPv6Address.isUnicast a = true ∧ IPv6Address.isMulticast a = false) ∨
      (IPv6Address.isUnicast a = false ∧ IPv6Address.isMulticast a = true))
    ∧ (∀ a : NetAddress, ValidAddr 6 48 a →
      (MACAddress.isUnicast a = true ∧ MACAddress.isMulticast a = false) ∨
      (MACAddress.isUnicast a = false ∧ MACAddress.isMulticast a = true)) := by
  refine ⟨?_, ?_, ?_⟩
  · intro a _
    simp only [IPv4Address.isUnicast, IPv4Address.isMulticast,
      IPv4Address.isExperimental, decide_eq_true_eq,
      decide_eq_false_iff_not]
    omega
  · intro a _
    simp only [IPv6Address.isUnicast, IPv6Address.isMulticast,
      decide_eq_true_eq, decide_eq_false_iff_not]
    by_cases h : a.octet.getD 0 0 = 0xFF
    · right
      exact ⟨fun hc => hc h, h⟩
    · left
      exact ⟨h, h⟩
  · intro a _
    cases h : NetAddress.isBitset a 7 0
    · left
      simp [MACAddress.isUnicast, MACAddress.isMulticast, MACAddress.isIGset, h]
    · right
      simp [MACAddress.isUnicast, MACAddress.isMulticast, MACAddress.isIGset, h]

/-- Witness for C6 at the unicast IPv4 address 10.0.0.1. -/
theorem c6_partition_witness :
    IPv4Address.isUnicast ⟨[10, 0, 0, 1], 32⟩ = true := by
  rcases c6_partition.1 ⟨[10, 0, 0, 1], 32⟩ (by decide) with h | h | h
  · exact h.1
  · exact absurd h.2.1 (by decide)
  · exact absurd h.2.2 (by decide)

/-- C8: a valid IPv4 or IPv6 address that is not multicast produces no
MAC at all in the derivation scripts — the per-record outcome is the
skip (`none`), never a pass-through or a converted address. -/
theorem c8_not_multicast :
    (∀ a : NetAddress, ValidAddr 4 32 a → IPv4Address.isMulticast a = false →
      mip2macOne a = none)
    ∧ (∀ a : NetAddress, ValidAddr 16 128 a →
      IPv6Address.isMulticast a = false → mip2mac6One a = none) := by
  constructor
  · intro a _ h
    simp [mip2macOne, h]
  · intro a _ h
    simp [mip2mac6One, h]

/-- Witness for C8 at the unicast addresses 10.0.0.1 and 2001:db8::1
(fully expanded). -/
theorem c8_not_multicast_witness :
    mip2macOne ⟨[10, 0, 0, 1], 32⟩ = none ∧
    mip2mac6One ⟨[0x20, 0x01, 0x0d, 0xb8, 0, 0, 0, 0,
      0, 0, 0, 0, 0, 0, 0, 1], 128⟩ = none :=
  ⟨c8_not_multicast.1 ⟨[10, 0, 0, 1], 32⟩ (by decide) (by decide),
   c8_not_multicast.2 ⟨[0x20, 0x01, 0x0d, 0xb8, 0, 0, 0, 0,
      0, 0, 0, 0, 0, 0, 0, 1], 128⟩ (by decide) (by decide)⟩

/-- C10: the 192 branch of `isPrivateAddress` tests the second octet
with `>= 168`, so every valid IPv4 address 192.x.y.z with x ≥ 168 is
reported private — including addresses outside 192.168.0.0/16. -/
theorem c10_private_192_range (a : NetAddress) (_hv : ValidAddr 4 32 a)
    (h0 : a.octet.getD 0 0 = 192) (h1 : 168 ≤ a.octet.getD 1 0) :
    IPv4Address.isPrivateAddress a = true := by
  unfold IPv4Address.isPrivateAddress
  rw [if_neg (by omega), if_neg (by rintro ⟨hc, -⟩; omega), if_pos ⟨h0, h1⟩]

/-- Witness for C10 at 192.250.0.1, which is outside 192.168.0.0/16. -/
theorem c10_private_192_range_witness :
    IPv4Address.isPrivateAddress ⟨[192, 250, 0, 1], 32⟩ = true :=
  c10_private_192_range ⟨[192, 250, 0, 1], 32⟩ (by decide) (by decide)
    (by decide)

/-!
Inversion lemmas for the parsing pipeline, used for the error-handling
claim.
-/

lemma splitInputString_ok_inv (s : List Char) (d : Char) (k : Nat)
    (parts : List (List Char)) (h : splitInputString s d k = .ok parts) :
    s.length ≠ 0 ∧ parts = pySplit d s ∧ parts.length = k := by
  unfold splitInputString at h
  by_cases h0 : s.length = 0
  · rw [if_pos h0] at h
    cases h
  · rw [if_neg h0] at h
    by_cases hk : (pySplit d s).length ≠ k
    · rw [if_pos hk] at h
      cases h
    · rw [if_neg hk] at h
      injection h with h2
      exact ⟨h0, h2.symm, h2 ▸ (by omega)⟩

lemma parseOctets_ok_bounds : ∀ (parts : List (List Char)) (os : List Nat),
    IPv4Address.parseOctets parts = .ok os →
    ∀ p ∈ parts, ∃ v : Int, pyIntDec p = some v ∧ ¬(v < 0 ∨ 255 < v)
  | [], _, _, p, hp => by simp at hp
  | q :: rest, os, h, p, hp => by
    simp only [IPv4Address.parseOctets] at h
    rcases hq : pyIntDec q with _ | v
    · rw [hq] at h
      cases h
    · rw [hq] at h
      dsimp only at h
      by_cases hc : (v < 0 ∨ 255 < v)
      · rw [if_pos hc] at h
        cases h
      · rw [if_neg hc] at h
        rcases List.mem_cons.mp hp with rfl | hp2
        · exact ⟨v, hq, hc⟩
        · rcases hrest : IPv4Address.parseOctets rest with e | os2
          · rw [hrest] at h
            cases h
          · exact parseOctets_ok_bounds rest os2 hrest p hp2

lemma parseInputString_ok_inv (s : List Char) (os : List Nat)
    (h : IPv4Address.parseInputString s = .ok os) :
    s ≠ [] ∧ (pySplit '.' s).length = 4 ∧
    IPv4Address.parseOctets (pySplit '.' s) = .ok os := by
  unfold IPv4Address.parseInputString at h
  rcases hsp : splitInputString s '.' 4 with e | parts
  · rw [hsp] at h
    cases h
  · rw [hsp] at h
    obtain ⟨h0, hparts, hlen⟩ := splitInputString_ok_inv s '.' 4 parts hsp
    dsimp only at h
    rcases hoc : IPv4Address.parseOctets parts with e | os2
    · rw [hoc] at h
      cases h
    · rw [hoc] at h
      dsimp only at h
      by_cases hl4 : os2.length ≠ 4
      · rw [if_pos hl4] at h
        cases h
      · rw [if_neg hl4] at h
        injection h with h2
        subst h2
        exact ⟨fun hc => h0 (by simp [hc]), hparts ▸ hlen, hparts ▸ hoc⟩

/-- The concrete out-of-range input of the spec's scenario 5. -/
def badIPv4Str : List Char := "1.2.3.256".toList

/-- C7: every malformed IPv4 input — empty text, a field count other
than 4, a non-numeric field, or a field value outside [0, 255] — makes
the parser return an error (never a defaulted address); in particular
parsing "1.2.3.256" errors. -/
theorem c7_parse_errors :
    IPv4Address.parseInputString [] = .error .attributeError
    ∧ (∀ s : List Char, (pySplit '.' s).length ≠ 4 →
        ∃ e, IPv4Address.parseInputString s = .error e)
    ∧ (∀ s : List Char, ∀ p ∈ pySplit '.' s, pyIntDec p = none →
        ∃ e, IPv4Address.parseInputString s = .error e)
    ∧ (∀ s : List Char, ∀ p ∈ pySplit '.' s, ∀ v : Int, pyIntDec p = some v →
        (v < 0 ∨ 255 < v) → ∃ e, IPv4Address.parseInputString s = .error e)
    ∧ IPv4Address.parseInputString badIPv4Str = .error .valueError := by
  have herr : ∀ s : List Char,
      (∀ os, IPv4Address.parseInputString s ≠ .ok os) →
      ∃ e, IPv4Address.parseInputString s = .error e := by
    intro s h
    rcases hr : IPv4Address.parseInputString s with e | os
    · exact ⟨e, rfl⟩
    · exact absurd hr (h os)
  refine ⟨by decide, ?_, ?_, ?_, by decide⟩
  · intro s hlen
    apply herr
    intro os hok
    exact hlen (parseInputString_ok_inv s os hok).2.1
  · intro s p hp hnone
    apply herr
    intro os hok
    obtain ⟨v, hv, -⟩ :=
      parseOctets_ok_bounds _ os (parseInputString_ok_inv s os hok).2.2 p hp
    rw [hnone] at hv
    cases hv
  · intro s p hp v hv hout
    apply herr
    intro os hok
    obtain ⟨v2, hv2, hb⟩ :=
      parseOctets_ok_bounds _ os (parseInputString_ok_inv s os hok).2.2 p hp
    rw [hv] at hv2
    injection hv2 with h2
    exact hb (h2 ▸ hout)

/-- The malformed two-field input used as the C7 witness. -/
def shortIPv4Str : List Char := "1.2".toList

/-- Witness for C7: the field count 2 of "1.2" is not 4, so parsing
errors. -/
theorem c7_parse_errors_witness :
    ∃ e, IPv4Address.parseInputString shortIPv4Str = .error e :=
  c7_parse_errors.2.1 shortIPv4Str (by decide)

/-!
Lemmas for the multicast-to-MAC derivation claim.
-/

lemma getOctet_valid (a : NetAddress) (i : Nat) (h1 : 1 ≤ i)
    (h2 : i ≤ a.octet.length) :
    NetAddress.getOctet a i = (a.octet.getD (i - 1) 0 : Int) := by
  unfold NetAddress.getOctet
  rw [if_pos ⟨h1, h2⟩]

lemma parseOctetsHex_cons (p : List Char) (v : Nat) (hv : v ≤ 255)
    (hp : pyIntHex p = some (v : Int)) (rest : List (List Char))
    (os : List Nat) (hrest : MACAddress.parseOctets rest = .ok os) :
    MACAddress.parseOctets (p :: rest) = .ok (v :: os) := by
  have hcond : ¬((v : Int) < 0 ∨ (255 : Int) < (v : Int)) := by
    rintro (h | h) <;> omega
  simp only [MACAddress.parseOctets, hp, if_neg hcond, hrest]
  congr 1

lemma macParse_joinWith (parts : List (List Char)) (os : List Nat)
    (hne : parts ≠ []) (hl : parts.length = 6)
    (hforall : ∀ p ∈ parts, ':' ∉ p ∧ p ≠ [])
    (hoc : MACAddress.parseOctets parts = .ok os) (hos : os.length = 6) :
    MACAddress.parseInputString (joinWith ':' parts) = .ok os := by
  have hsplit := pySplit_joinWith ':' parts hne (fun p hp => (hforall p hp).1)
  have hinput : joinWith ':' parts ≠ [] := by
    rcases parts with _ | ⟨p0, prest⟩
    · cases hne rfl
    · exact joinWith_ne_nil ':' p0 prest (hforall p0 (by simp)).2
  unfold MACAddress.parseInputString splitInputString
  rw [if_neg (by simpa using hinput), hsplit, if_neg (by omega)]
  dsimp only
  rw [hoc]
  dsimp only
  rw [if_neg (by omega)]

lemma mip2macInputString_eq (a : NetAddress) (hlen : a.octet.length = 4) :
    mip2macInputString a = joinWith ':'
      [['0', '1'], ['0', '0'], ['5', 'E'],
       pyHex2 (a.octet.getD 1 0 % 128), pyHex2 (a.octet.getD 2 0),
       pyHex2 (a.octet.getD 3 0)] := by
  unfold mip2macInputString
  rw [getOctet_valid a 2 (by omega) (by omega),
      getOctet_valid a 3 (by omega) (by omega),
      getOctet_valid a 4 (by omega) (by omega)]
  simp only [show ∀ x : Nat, (((x : Int)) % 128).toNat = x % 128 from
      fun x => by omega,
    show ∀ x : Nat, ((x : Int)).toNat = x from fun x => by omega]
  simp [joinWith]

lemma mip2mac6InputString_eq (a : NetAddress) (hlen : a.octet.length = 16) :
    mip2mac6InputString a = joinWith ':'
      [['3', '3'], ['3', '3'],
       pyHex2 (a.octet.getD 12 0), pyHex2 (a.octet.getD 13 0),
       pyHex2 (a.octet.getD 14 0), pyHex2 (a.octet.getD 15 0)] := by
  unfold mip2mac6InputString
  rw [getOctet_valid a 13 (by omega) (by omega),
      getOctet_valid a 14 (by omega) (by omega),
      getOctet_valid a 15 (by omega) (by omega),
      getOctet_valid a 16 (by omega) (by omega)]
  simp only [show ∀ x : Nat, ((x : Int)).toNat = x from fun x => by omega]
  simp [joinWith]

/-- C3 (amended): for every multicast IPv4 address the derived MAC
octets are [01, 00, 5E, octet2 mod 128, octet3, octet4]; for every
multicast IPv6 address they are [33, 33, octet13, octet14, octet15,
octet16] (1-based octet numbering); and
multicast_to_mac(239.1.1.1) = 01:00:5e:01:01:01. -/
theorem c3_mcast_mac :
    (∀ a : NetAddress, ValidAddr 4 32 a → IPv4Address.isMulticast a = true →
      mip2macOne a = some (.ok ⟨[0x01, 0x00, 0x5E, a.octet.getD 1 0 % 128,
        a.octet.getD 2 0, a.octet.getD 3 0], 48⟩))
    ∧ (∀ a : NetAddress, ValidAddr 16 128 a →
      IPv6Address.isMulticast a = true →
      mip2mac6One a = some (.ok ⟨[0x33, 0x33, a.octet.getD 12 0,
        a.octet.getD 13 0, a.octet.getD 14 0, a.octet.getD 15 0], 48⟩))
    ∧ mip2macOne ⟨[239, 1, 1, 1], 32⟩ =
        some (.ok ⟨[0x01, 0x00, 0x5E, 0x01, 0x01, 0x01], 48⟩) := by
  refine ⟨?_, ?_, by decide⟩
  · intro a hv hm
    obtain ⟨hlen, hoct, -⟩ := hv
    have h3 : a.octet.getD 2 0 ≤ 255 :=
      hoct _ (getD_mem_of_lt a.octet 2 (by omega))
    have h4 : a.octet.getD 3 0 ≤ 255 :=
      hoct _ (getD_mem_of_lt a.octet 3 (by omega))
    unfold mip2macOne
    rw [if_pos hm]
    congr 1
    unfold MACAddress.make
    rw [if_neg (by norm_num)]
    have hparse : MACAddress.parseInputString (mip2macInputString a) = .ok
        [1, 0, 94, a.octet.getD 1 0 % 128, a.octet.getD 2 0,
          a.octet.getD 3 0] := by
      rw [mip2macInputString_eq a hlen]
      apply macParse_joinWith
      · simp
      · simp
      · intro p hp
        have f2 := pyHex2_facts (a.octet.getD 1 0 % 128) (by omega)
        have f3 := pyHex2_facts (a.octet.getD 2 0) (by omega)
        have f4 := pyHex2_facts (a.octet.getD 3 0) (by omega)
        simp only [List.mem_cons, List.not_mem_nil, or_false] at hp
        rcases hp with rfl | rfl | rfl | rfl | rfl | rfl
        · exact ⟨by decide, by decide⟩
        · exact ⟨by decide, by decide⟩
        · exact ⟨by decide, by decide⟩
        · exact ⟨f2.2.2.2.1, f2.2.2.2.2.1⟩
        · exact ⟨f3.2.2.2.1, f3.2.2.2.2.1⟩
        · exact ⟨f4.2.2.2.1, f4.2.2.2.2.1⟩
      · apply parseOctetsHex_cons _ 1 (by omega) (by decide)
        apply parseOctetsHex_cons _ 0 (by omega) (by decide)
        apply parseOctetsHex_cons _ 94 (by omega) (by decide)
        apply parseOctetsHex_cons _ _ (by omega)
          (pyHex2_facts (a.octet.getD 1 0 % 128) (by omega)).1
        apply parseOctetsHex_cons _ _ h3
          (pyHex2_facts (a.octet.getD 2 0) (by omega)).1
        apply parseOctetsHex_cons _ _ h4
          (pyHex2_facts (a.octet.getD 3 0) (by omega)).1
        rfl
      · simp
    rw [hparse]
    dsimp only
    rw [if_neg (by norm_num)]
    rfl
  · intro a hv hm
    obtain ⟨hlen, hoct, -⟩ := hv
    have h13 : a.octet.getD 12 0 ≤ 255 :=
      hoct _ (getD_mem_of_lt a.octet 12 (by omega))
    have h14 : a.octet.getD 13 0 ≤ 255 :=
      hoct _ (getD_mem_of_lt a.octet 13 (by omega))
    have h15 : a.octet.getD 14 0 ≤ 255 :=
      hoct _ (getD_mem_of_lt a.octet 14 (by omega))
    have h16 : a.octet.getD 15 0 ≤ 255 :=
      hoct _ (getD_mem_of_lt a.octet 15 (by omega))
    unfold mip2mac6One
    rw [if_pos hm]
    congr 1
    unfold MACAddress.make
    rw [if_neg (by norm_num)]
    have hparse : MACAddress.parseInputString (mip2mac6InputString a) = .ok
        [0x33, 0x33, a.octet.getD 12 0, a.octet.getD 13 0,
          a.octet.getD 14 0, a.octet.getD 15 0] := by
      rw [mip2mac6InputString_eq a hlen]
      apply macParse_joinWith
      · simp
      · simp
      · intro p hp
        have f13 := pyHex2_facts (a.octet.getD 12 0) (by omega)
        have f14 := pyHex2_facts (a.octet.getD 13 0) (by omega)
        have f15 := pyHex2_facts (a.octet.getD 14 0) (by omega)
        have f16 := pyHex2_facts (a.octet.getD 15 0) (by omega)
        simp only [List.mem_cons, List.not_mem_nil, or_false] at hp
        rcases hp with rfl | rfl | rfl | rfl | rfl | rfl
        · exact ⟨by decide, by decide⟩
        · exact ⟨by decide, by decide⟩
        · exact ⟨f13.2.2.2.1, f13.2.2.2.2.1⟩
        · exact ⟨f14.2.2.2.1, f14.2.2.2.2.1⟩
        · exact ⟨f15.2.2.2.1, f15.2.2.2.2.1⟩
        · exact ⟨f16.2.2.2.1, f16.2.2.2.2.1⟩
      · apply parseOctetsHex_cons _ 0x33 (by omega) (by decide)
        apply parseOctetsHex_cons _ 0x33 (by omega) (by decide)
        apply parseOctetsHex_cons _ _ h13
          (pyHex2_facts (a.octet.getD 12 0) (by omega)).1
        apply parseOctetsHex_cons _ _ h14
          (pyHex2_facts (a.octet.getD 13 0) (by omega)).1
        apply parseOctetsHex_cons _ _ h15
          (pyHex2_facts (a.octet.getD 14 0) (by omega)).1
        apply parseOctetsHex_cons _ _ h16
          (pyHex2_facts (a.octet.getD 15 0) (by omega)).1
        rfl
      · simp
    rw [hparse]
    dsimp only
    rw [if_neg (by norm_num)]
    rfl

/-- Witness for C3's general formulas at 239.1.1.1 and at the
solicited-node multicast address ff02::1:ff00:1 (fully expanded). -/
theorem c3_mcast_mac_witness :
    mip2macOne ⟨[239, 1, 1, 1], 32⟩ =
      some (.ok ⟨[0x01, 0x00, 0x5E, 0x01, 0x01, 0x01], 48⟩) ∧
    mip2mac6One ⟨[0xff, 0x02, 0, 0, 0, 0, 0, 0, 0, 0, 0x00, 0x01,
      0xff, 0x00, 0x00, 0x01], 128⟩ =
      some (.ok ⟨[0x33, 0x33, 0xff, 0x00, 0x00, 0x01], 48⟩) :=
  ⟨c3_mcast_mac.1 ⟨[239, 1, 1, 1], 32⟩ (by decide) (by decide),
   c3_mcast_mac.2.1 ⟨[0xff, 0x02, 0, 0, 0, 0, 0, 0, 0, 0, 0x00, 0x01,
      0xff, 0x00, 0x00, 0x01], 128⟩ (by decide) (by decide)⟩

/-- The spec's IPv6 multicast example input, fully expanded. -/
def mip6ExampleStr : List Char :=
  "ff02:0000:0000:0000:0000:0001:ff00:0001".toList

/-- C3 (counterexample to the claim's IPv6 example): parsing
ff02:0000:0000:0000:0000:0001:ff00:0001 and deriving its multicast MAC
gives 33:33:ff:00:00:01 — octets 13 through 16 are ff, 00, 00, 01 — and
not the 33:33:01:ff:00:01 the claim asserts. -/
theorem c3_counterexample :
    IPv6Address.parseInputString mip6ExampleStr =
      .ok [0xff, 0x02, 0, 0, 0, 0, 0, 0, 0, 0, 0x00, 0x01,
        0xff, 0x00, 0x00, 0x01]
    ∧ mip2mac6One ⟨[0xff, 0x02, 0, 0, 0, 0, 0, 0, 0, 0, 0x00, 0x01,
        0xff, 0x00, 0x00, 0x01], 128⟩ =
      some (.ok ⟨[0x33, 0x33, 0xff, 0x00, 0x00, 0x01], 48⟩)
    ∧ (⟨[0x33, 0x33, 0xff, 0x00, 0x00, 0x01], 48⟩ : NetAddress) ≠
      ⟨[0x33, 0x33, 0x01, 0xff, 0x00, 0x01], 48⟩ := by decide

/-- The six byte values named mac0..mac5 by the claim: consecutive
hex-digit pairs of the cleaned 12-character MAC string. -/
def hexPairBytes : List Char → List Nat
  | a :: b :: rest =>
    (16 * (hexDigitVal a).getD 0 + (hexDigitVal b).getD 0) :: hexPairBytes rest
  | _ => []

lemma int_xor_two : ∀ w : Nat, w < 16 →
    Int.xor (w : Int) 2 = ((w ^^^ 2 : Nat) : Int) := by decide

lemma int_land_one : ∀ w : Nat, w < 16 →
    (Int.land (w : Int) 1 = 0 ↔ w % 2 = 0) := by decide

lemma pyHexLast_facts : ∀ u : Nat, u < 16 →
    hexDigitVal (pyHexLast ((u : Nat) : Int)) = some u ∧
    (hexDigitVal (pyHexLast ((u : Nat) : Int))).isSome := by decide

lemma xor_byte : ∀ w0 : Nat, w0 < 16 → ∀ w1 : Nat, w1 < 16 →
    (16 * w0 + w1) ^^^ 2 = 16 * w0 + (w1 ^^^ 2) := by decide

lemma nat_xor_two_lt : ∀ w : Nat, w < 16 → w ^^^ 2 < 16 := by decide

lemma digitsGo_isSome (dv : Char → Option Nat) (b : Nat) :
    ∀ (l : List Char) (acc : Nat), (∀ c ∈ l, (dv c).isSome) →
      ∃ v, digitsGo dv b acc l = some v
  | [], acc, _ => ⟨acc, rfl⟩
  | c :: rest, acc, h => by
    obtain ⟨w, hw⟩ := Option.isSome_iff_exists.mp (h c (by simp))
    simp only [digitsGo, hw]
    exact digitsGo_isSome dv b rest (b * acc + w)
      (fun x hx => h x (by simp [hx]))

lemma pyIntHex_single (c : Char) (w : Nat) (hw : hexDigitVal c = some w) :
    pyIntHex [c] = some ((w : Nat) : Int) := by
  apply pyIntHex_digits
  · simp
  · intro x hx
    rw [List.mem_singleton.mp hx, hw]
    rfl
  · simp [digitsGo, hw]

/-- The all-zeros MAC string: 12 hexadecimal characters with the I/G
bit clear, which the checker nevertheless rejects. -/
def zeroMacStr : List Char := "000000000000".toList

/-- A signed string that the `int(...)`-based check accepts although it
does not consist of 12 hexadecimal characters. -/
def signedMacStr : List Char := "+01223344556".toList

/-- C9 (counterexample): "000000000000" is exactly 12 hex characters
with the I/G bit of the first byte clear, yet `is_valid_mac` rejects it
(the `int(mac, 16) > 0` clause), and "+01223344556" is accepted though
its first character is not a hex digit — both directions of the
claimed equivalence fail. -/
theorem c9_counterexample :
    (is_valid_mac zeroMacStr = .ok false ∧
      zeroMacStr.length = 12 ∧
      (∀ c ∈ zeroMacStr, (hexDigitVal c).isSome) ∧
      (hexDigitVal (zeroMacStr.getD 1 ' ')).getD 0 % 2 = 0) ∧
    (is_valid_mac signedMacStr = .ok true ∧
      ¬(∀ c ∈ signedMacStr, (hexDigitVal c).isSome)) := by decide

/-- C9 (amended): over inputs made only of hexadecimal digit
characters, the checker accepts exactly when there are 12 of them,
their value is nonzero, and the I/G bit (the least significant bit of
the first byte, i.e. the parity of the second hex digit) is clear; and
every rejected MAC is skipped, producing no address. -/
theorem c9_valid_mac (mac : List Char)
    (hhex : ∀ c ∈ mac, (hexDigitVal c).isSome) :
    (is_valid_mac mac = .ok true ↔
      mac.length = 12 ∧
      (∃ v : Nat, digitsGo hexDigitVal 16 0 mac = some v ∧ 0 < v) ∧
      (hexDigitVal (mac.getD 1 ' ')).getD 0 % 2 = 0) ∧
    (∀ P : List Char, is_valid_mac mac = .ok false →
      processLine mac P = .ok none) := by
  constructor
  case right =>
    intro P h
    unfold processLine
    rw [h]
  by_cases hl : mac.length = 12
  case neg =>
    unfold is_valid_mac
    rw [if_neg hl]
    constructor
    · intro h
      simp at h
    · rintro ⟨h12, -⟩
      exact absurd h12 hl
  case pos =>
    obtain ⟨v, hv⟩ := digitsGo_isSome hexDigitVal 16 mac 0 hhex
    have hne : mac ≠ [] := by
      intro h
      rw [h] at hl
      simp at hl
    have hint := pyIntHex_digits mac v hne hhex hv
    rcases mac with _ | ⟨c0, mac⟩
    · simp at hl
    rcases mac with _ | ⟨c1, mac⟩
    · simp at hl
    obtain ⟨w1, hw1⟩ := Option.isSome_iff_exists.mp (hhex c1 (by simp))
    have hw1lt := hexDigitVal_lt c1 w1 hw1
    have h1 := pyIntHex_single c1 w1 hw1
    unfold is_valid_mac
    rw [if_pos hl, hint]
    dsimp only
    rw [show ((c0 :: c1 :: mac).drop 1).take 1 = [c1] from rfl, h1]
    by_cases hv0 : (0 : Int) < (v : Int)
    · rw [if_pos hv0]
      dsimp only
      constructor
      · intro h
        injection h with hb
        rw [decide_eq_true_eq] at hb
        have hpar := (int_land_one w1 hw1lt).mp hb
        refine ⟨hl, ⟨v, hv, by omega⟩, ?_⟩
        simpa [hw1] using hpar
      · rintro ⟨-, -, hpar⟩
        have hpar2 : w1 % 2 = 0 := by simpa [hw1] using hpar
        rw [decide_eq_true ((int_land_one w1 hw1lt).mpr hpar2)]
    · rw [if_neg hv0]
      constructor
      · intro h
        simp at h
      · rintro ⟨-, ⟨v2, hv2, hpos⟩, -⟩
        rw [hv] at hv2
        injection hv2 with he
        omega

/-- Witness for C9's amended theorem at the MAC "001122334455". -/
def macExampleStr : List Char := "001122334455".toList

/-- Witness for C9: the example MAC is accepted and its acceptance
agrees with the amended characterisation. -/
theorem c9_valid_mac_witness :
    is_valid_mac macExampleStr = .ok true :=
  ((c9_valid_mac macExampleStr (by decide)).1).mpr (by decide)

lemma not_mem_four (d a b c e : Char) (h1 : a ≠ d) (h2 : b ≠ d)
    (h3 : c ≠ d) (h4 : e ≠ d) : d ∉ [a, b, c, e] := by
  intro hc
  simp only [List.mem_cons, List.not_mem_nil, or_false] at hc
  rcases hc with h | h | h | h
  · exact h1 h.symm
  · exact h2 h.symm
  · exact h3 h.symm
  · exact h4 h.symm

lemma parseGroup_four (a b c d : Char) (wa wb wc wd : Nat)
    (ha : hexDigitVal a = some wa) (hb : hexDigitVal b = some wb)
    (hc : hexDigitVal c = some wc) (hd : hexDigitVal d = some wd) :
    parseGroup [a, b, c, d] =
      some (16 * (16 * (16 * (16 * 0 + wa) + wb) + wc) + wd) := by
  unfold parseGroup
  rw [if_pos (by simp)]
  unfold parseDigits
  rw [if_neg (by simp)]
  simp only [digitsGo, ha, hb, hc, hd]

/-- The example prefix of the spec's scenario 4 (the RFC 3849
documentation prefix, as the script's default). -/
def v6PrefixStr : List Char := "2001:db8::".toList

/-- The line the script prints for the example MAC with that prefix. -/
def euiOutStr : List Char := "2001:db8::0211:22ff:fe33:4455".toList

/-- C4: for every cleaned 12-hex-character MAC that passes
`is_valid_mac` and any prefix text, the script outputs the prefix text
followed by the host text, whose four groups encode exactly the bytes
(mac0 XOR 02) mac1 mac2 FF FE mac3 mac4 mac5; and for
mac_to_eui64("00:11:22:33:44:55", "2001:db8::") the printed string
denotes 2001:0db8:0000:0000:0211:22ff:fe33:4455. -/
theorem c4_eui64 :
    (∀ (mac P : List Char) (v1 : Int), mac.length = 12 →
      (∀ c ∈ mac, (hexDigitVal c).isSome) →
      is_valid_mac mac = .ok true →
      pyIntHex ((mac.drop 1).take 1) = some v1 →
      processLine mac P = .ok (some (P ++ eui64Host mac v1)) ∧
      (∀ m0 m1 m2 m3 m4 m5 : Nat,
        hexPairBytes mac = [m0, m1, m2, m3, m4, m5] →
        (parseGroupList (pySplit ':' (eui64Host mac v1))).map groupsToBytes =
          some [m0 ^^^ 2, m1, m2, 0xFF, 0xFE, m3, m4, m5]))
    ∧ processLine macExampleStr v6PrefixStr = .ok (some euiOutStr)
    ∧ expandIPv6 euiOutStr = some [0x20, 0x01, 0x0d, 0xb8, 0, 0, 0, 0,
        0x02, 0x11, 0x22, 0xff, 0xfe, 0x33, 0x44, 0x55] := by
  refine ⟨?_, by decide, by decide⟩
  intro mac P v1 hlen hhex hvalid hv1
  rcases mac with _ | ⟨c0, mac⟩
  · simp at hlen
  rcases mac with _ | ⟨c1, mac⟩
  · simp at hlen
  rcases mac with _ | ⟨c2, mac⟩
  · simp at hlen
  rcases mac with _ | ⟨c3, mac⟩
  · simp at hlen
  rcases mac with _ | ⟨c4, mac⟩
  · simp at hlen
  rcases mac with _ | ⟨c5, mac⟩
  · simp at hlen
  rcases mac with _ | ⟨c6, mac⟩
  · simp at hlen
  rcases mac with _ | ⟨c7, mac⟩
  · simp at hlen
  rcases mac with _ | ⟨c8, mac⟩
  · simp at hlen
  rcases mac with _ | ⟨c9, mac⟩
  · simp at hlen
  rcases mac with _ | ⟨c10, mac⟩
  · simp at hlen
  rcases mac with _ | ⟨c11, mac⟩
  · simp at hlen
  rcases mac with _ | ⟨c12, mac⟩
  swap
  · simp only [List.length_cons] at hlen
    omega
  obtain ⟨w0, hw0⟩ := Option.isSome_iff_exists.mp (hhex c0 (by simp))
  obtain ⟨w1, hw1⟩ := Option.isSome_iff_exists.mp (hhex c1 (by simp))
  obtain ⟨w2, hw2⟩ := Option.isSome_iff_exists.mp (hhex c2 (by simp))
  obtain ⟨w3, hw3⟩ := Option.isSome_iff_exists.mp (hhex c3 (by simp))
  obtain ⟨w4, hw4⟩ := Option.isSome_iff_exists.mp (hhex c4 (by simp))
  obtain ⟨w5, hw5⟩ := Option.isSome_iff_exists.mp (hhex c5 (by simp))
  obtain ⟨w6, hw6⟩ := Option.isSome_iff_exists.mp (hhex c6 (by simp))
  obtain ⟨w7, hw7⟩ := Option.isSome_iff_exists.mp (hhex c7 (by simp))
  obtain ⟨w8, hw8⟩ := Option.isSome_iff_exists.mp (hhex c8 (by simp))
  obtain ⟨w9, hw9⟩ := Option.isSome_iff_exists.mp (hhex c9 (by simp))
  obtain ⟨w10, hw10⟩ := Option.isSome_iff_exists.mp (hhex c10 (by simp))
  obtain ⟨w11, hw11⟩ := Option.isSome_iff_exists.mp (hhex c11 (by simp))
  have hlt0 := hexDigitVal_lt c0 w0 hw0
  have hlt1 := hexDigitVal_lt c1 w1 hw1
  have hlt2 := hexDigitVal_lt c2 w2 hw2
  have hlt3 := hexDigitVal_lt c3 w3 hw3
  have hlt4 := hexDigitVal_lt c4 w4 hw4
  have hlt5 := hexDigitVal_lt c5 w5 hw5
  have hlt6 := hexDigitVal_lt c6 w6 hw6
  have hlt7 := hexDigitVal_lt c7 w7 hw7
  have hlt8 := hexDigitVal_lt c8 w8 hw8
  have hlt9 := hexDigitVal_lt c9 w9 hw9
  have hlt10 := hexDigitVal_lt c10 w10 hw10
  have hlt11 := hexDigitVal_lt c11 w11 hw11
  have h1 := pyIntHex_single c1 w1 hw1
  rw [show (((c0 :: c1 :: c2 :: c3 :: c4 :: c5 :: c6 :: c7 :: c8 :: c9 ::
    c10 :: c11 :: ([] : List Char)).drop 1).take 1) = [c1] from rfl, h1]
    at hv1
  injection hv1 with hv1e
  subst hv1e
  have hxlt := nat_xor_two_lt w1 hlt1
  have hFfacts := pyHexLast_facts (w1 ^^^ 2) hxlt
  have hx2 : Int.xor ((w1 : Nat) : Int) 2 = ((w1 ^^^ 2 : Nat) : Int) :=
    int_xor_two w1 hlt1
  have hhost : eui64Host
      [c0, c1, c2, c3, c4, c5, c6, c7, c8, c9, c10, c11] ((w1 : Nat) : Int) =
      joinWith ':' [[c0, pyHexLast (((w1 ^^^ 2 : Nat) : Int)), c2, c3],
        [c4, c5, 'f', 'f'], ['f', 'e', c6, c7], [c8, c9, c10, c11]] := by
    unfold eui64Host host_addr
    rw [hx2]
    rfl
  constructor
  · unfold processLine
    rw [hvalid]
    dsimp only
    unfold eui64Addr
    rw [show ((host_addr [c0, c1, c2, c3, c4, c5, c6, c7, c8, c9, c10,
      c11]).getD 1 ' ') = c1 from rfl, h1]
  · intro m0 m1 m2 m3 m4 m5 hbytes
    have hn0 : c0 ≠ ':' := hexDigitVal_ne c0 w0 hw0 ':' (by decide)
    have hn2 : c2 ≠ ':' := hexDigitVal_ne c2 w2 hw2 ':' (by decide)
    have hn3 : c3 ≠ ':' := hexDigitVal_ne c3 w3 hw3 ':' (by decide)
    have hn4 : c4 ≠ ':' := hexDigitVal_ne c4 w4 hw4 ':' (by decide)
    have hn5 : c5 ≠ ':' := hexDigitVal_ne c5 w5 hw5 ':' (by decide)
    have hn6 : c6 ≠ ':' := hexDigitVal_ne c6 w6 hw6 ':' (by decide)
    have hn7 : c7 ≠ ':' := hexDigitVal_ne c7 w7 hw7 ':' (by decide)
    have hn8 : c8 ≠ ':' := hexDigitVal_ne c8 w8 hw8 ':' (by decide)
    have hn9 : c9 ≠ ':' := hexDigitVal_ne c9 w9 hw9 ':' (by decide)
    have hn10 : c10 ≠ ':' := hexDigitVal_ne c10 w10 hw10 ':' (by decide)
    have hn11 : c11 ≠ ':' := hexDigitVal_ne c11 w11 hw11 ':' (by decide)
    have hnF : pyHexLast (((w1 ^^^ 2 : Nat) : Int)) ≠ ':' :=
      hexDigitVal_ne _ (w1 ^^^ 2) hFfacts.1 ':' (by decide)
    obtain ⟨e0, e1, e2, e3, e4, e5⟩ :
        16 * w0 + w1 = m0 ∧ 16 * w2 + w3 = m1 ∧ 16 * w4 + w5 = m2 ∧
        16 * w6 + w7 = m3 ∧ 16 * w8 + w9 = m4 ∧ 16 * w10 + w11 = m5 := by
      have hbytes2 : hexPairBytes
          [c0, c1, c2, c3, c4, c5, c6, c7, c8, c9, c10, c11] =
          [16 * w0 + w1, 16 * w2 + w3, 16 * w4 + w5, 16 * w6 + w7,
            16 * w8 + w9, 16 * w10 + w11] := by
        simp [hexPairBytes, hw0, hw1, hw2, hw3, hw4, hw5, hw6, hw7, hw8,
          hw9, hw10, hw11]
      rw [hbytes2] at hbytes
      simpa using hbytes
    subst e0 e1 e2 e3 e4 e5
    rw [hhost]
    rw [pySplit_joinWith ':' _ (by simp) ?memgoal]
    case memgoal =>
      intro p hp
      simp only [List.mem_cons, List.not_mem_nil, or_false] at hp
      rcases hp with rfl | rfl | rfl | rfl
      · exact not_mem_four ':' _ _ _ _ hn0 hnF hn2 hn3
      · exact not_mem_four ':' _ _ _ _ hn4 hn5 (by decide) (by decide)
      · exact not_mem_four ':' _ _ _ _ (by decide) (by decide) hn6 hn7
      · exact not_mem_four ':' _ _ _ _ hn8 hn9 hn10 hn11
    rw [show parseGroupList [[c0, pyHexLast (((w1 ^^^ 2 : Nat) : Int)),
        c2, c3], [c4, c5, 'f', 'f'], ['f', 'e', c6, c7],
        [c8, c9, c10, c11]] =
      some [16 * (16 * (16 * (16 * 0 + w0) + (w1 ^^^ 2)) + w2) + w3,
        16 * (16 * (16 * (16 * 0 + w4) + w5) + 15) + 15,
        16 * (16 * (16 * (16 * 0 + 15) + 14) + w6) + w7,
        16 * (16 * (16 * (16 * 0 + w8) + w9) + w10) + w11] by
      simp only [parseGroupList,
        parseGroup_four c0 _ c2 c3 w0 (w1 ^^^ 2) w2 w3 hw0 hFfacts.1 hw2 hw3,
        parseGroup_four c4 c5 'f' 'f' w4 w5 15 15 hw4 hw5 (by decide)
          (by decide),
        parseGroup_four 'f' 'e' c6 c7 15 14 w6 w7 (by decide) (by decide)
          hw6 hw7,
        parseGroup_four c8 c9 c10 c11 w8 w9 w10 w11 hw8 hw9 hw10 hw11]]
    simp only [Option.map, groupsToBytes]
    rw [xor_byte w0 hlt0 w1 hlt1]
    congr 1
    simp only [List.cons.injEq, and_true]
    refine ⟨?_, ?_, ?_, ?_, ?_, ?_, ?_, ?_⟩ <;> omega

/-- Witness for C4's general statement at the example MAC with the
documentation prefix. -/
theorem c4_eui64_witness :
    processLine macExampleStr v6PrefixStr =
      .ok (some (v6PrefixStr ++ eui64Host macExampleStr 0)) :=
  (c4_eui64.1 macExampleStr v6PrefixStr 0 (by decide) (by decide)
    (by decide) (by decide)).1
